import Mathlib

/-!
Verification of the qRest core: the SQL-to-REST translator
(internal/translator/simple_sql.go), the grammar generator
(internal/grammar/generator.go) and the request-building part of the REST
executor (internal/executor/rest.go).

The Go code is embedded shallowly:

* Go strings are Lean `String`s; the handful of `strings.*` helpers the
  code uses are re-implemented on `List Char` (`go*` functions below).
  Only ASCII behaviour is modelled (the repository only feeds ASCII SQL
  and ASCII identifiers through these helpers).
* The Go `regexp` patterns are embedded with a small backtracking engine
  (`reMatch`/`reFindFrom`) implementing the leftmost-first (Perl-style)
  match-and-submatch semantics that Go's regexp package documents, for
  exactly the constructs the patterns use: case-insensitive literals,
  character-class repetition (greedy and lazy), groups, alternation,
  optional groups and the end anchor.
* `int` is `Int`; `strconv.Atoi` keeps its 64-bit range check.
  `strconv.ParseFloat` is modelled on finite decimal syntax (optional
  sign, digits, fraction, exponent) with exact rational values; the
  repository never relies on binary rounding, infinities, hex floats or
  underscores.
* `map[string]...` values are association lists with insert-or-replace
  assignment; the code only iterates over slices, never over maps, so no
  iteration-order nondeterminism has to be modelled.
* Fallible Go functions returning `(T, error)` become `Except String T`.
* The executor is modelled up to the point where the HTTP request leaves
  the process: `ExecuteQuery`'s UPDATE/DELETE arms are embedded as a
  function producing the `RequestPlan` (method, URL, body) that would be
  issued, or an error when no request is issued.
-/

/-! ## Character sets -/

/-- ASCII upper-casing of a character code, as a `Nat` (used for the
case-insensitive comparisons Go applies under the `(?i)` flag). -/
def upperVal (c : Char) : Nat :=
  let n := c.toNat
  if 97 ≤ n ∧ n ≤ 122 then n - 32 else n

/-- Case-insensitive character equality (ASCII). -/
def ciEqChar (a b : Char) : Bool := upperVal a = upperVal b

/-- ASCII upper-casing of a character (`strings.ToUpper`, ASCII part). -/
def charUpper (c : Char) : Char :=
  if 97 ≤ c.toNat ∧ c.toNat ≤ 122 then Char.ofNat (c.toNat - 32) else c

/-- The whitespace class of RE2's `\s`: `[\t\n\f\r ]`. -/
def reSpaceC (c : Char) : Bool :=
  c = ' ' || c = '\t' || c = '\n' || c = '\x0c' || c = '\r'

/-- `unicode.IsSpace` restricted to ASCII (used by `strings.TrimSpace`
and `strings.Fields`): `[\t\n\v\f\r ]`. -/
def goIsSpace (c : Char) : Bool :=
  c = ' ' || c = '\t' || c = '\n' || c = '\x0b' || c = '\x0c' || c = '\r'

/-- RE2's `\w`: `[0-9A-Za-z_]`. -/
def reWord (c : Char) : Bool := c.isAlphanum || c = '_'

/-- RE2's `\d`: `[0-9]`. -/
def reDigit (c : Char) : Bool := c.isDigit

/-- RE2's `.` (without the `s` flag): any character except newline. -/
def reAny (c : Char) : Bool := c ≠ '\n'

/-- The class `[^)]`. -/
def reNotRParen (c : Char) : Bool := c ≠ ')'

/-! ## Go string helpers (list level) -/

/-- `strings.TrimSpace`, left part: drop leading whitespace. -/
def dropSpacesL (s : List Char) : List Char := s.dropWhile (fun c => goIsSpace c)

/-- `strings.TrimSpace` on a character list. -/
def trimSpaceL (s : List Char) : List Char :=
  ((dropSpacesL s).reverse.dropWhile (fun c => goIsSpace c)).reverse

/-- `strings.Trim` with an explicit cutset, on a character list. -/
def trimCutL (cut : List Char) (s : List Char) : List Char :=
  ((s.dropWhile (fun c => cut.contains c)).reverse.dropWhile
    (fun c => cut.contains c)).reverse

/-- Exact (case-sensitive) literal prefix test. -/
def isLitHead : List Char → List Char → Bool
  | [], _ => true
  | _ :: _, [] => false
  | p :: ps, c :: cs => p = c && isLitHead ps cs

/-- `strings.Contains` (case-sensitive substring search). -/
def containsSubL (s sub : List Char) : Bool :=
  match s with
  | [] => isLitHead sub []
  | _ :: rest => isLitHead sub s || containsSubL rest sub

/-- `strings.Split` helper, fuel-driven so that it reduces by kernel
computation (each step consumes at least one input character, so
`length + 1` fuel always suffices): split at each occurrence of the
separator `s0 :: sep`, leftmost first, non-overlapping. -/
def splitOnFuel (s0 : Char) (sep : List Char) : Nat → List Char → List (List Char)
  | 0, _ => [[]]
  | _ + 1, [] => [[]]
  | fuel + 1, c :: rest =>
    if isLitHead (s0 :: sep) (c :: rest) then
      [] :: splitOnFuel s0 sep fuel (rest.drop sep.length)
    else
      match splitOnFuel s0 sep fuel rest with
      | [] => [[c]]
      | g :: gs => (c :: g) :: gs

/-- `strings.Split` on lists with a non-empty separator. -/
def splitOnL (s0 : Char) (sep : List Char) (s : List Char) : List (List Char) :=
  splitOnFuel s0 sep (s.length + 1) s

/-- `strings.Fields`: split around runs of whitespace. -/
def fieldsL : List Char → List (List Char)
  | [] => []
  | c :: rest =>
    if goIsSpace c then fieldsL rest
    else
      match fieldsL rest with
      | [] => [[c]]
      | g :: gs =>
        match rest with
        | [] => [[c]]
        | d :: _ => if goIsSpace d then [c] :: g :: gs else (c :: g) :: gs

/-- `strings.Replace(s, old, new, 1)`: replace the first occurrence. -/
def replace1L (old new : List Char) : List Char → List Char
  | [] => if old.isEmpty then new else []
  | c :: rest =>
    if isLitHead old (c :: rest) then new ++ (c :: rest).drop old.length
    else c :: replace1L old new rest

/-! ## Go string helpers (String level) -/

/-- `strings.TrimSpace`. -/
def goTrimSpace (s : String) : String := ⟨trimSpaceL s.data⟩

/-- `strings.Trim` with a cutset. -/
def goTrimCut (cut : List Char) (s : String) : String := ⟨trimCutL cut s.data⟩

/-- `strings.ToUpper` (ASCII). -/
def goToUpper (s : String) : String := ⟨s.data.map charUpper⟩

/-- `strings.ToLower` (ASCII). -/
def goToLower (s : String) : String :=
  ⟨s.data.map (fun c =>
    if 65 ≤ c.toNat ∧ c.toNat ≤ 90 then Char.ofNat (c.toNat + 32) else c)⟩

/-- `strings.HasPrefix`. -/
def goStartsWith (s pre : String) : Bool := isLitHead pre.data s.data

/-- `strings.HasSuffix`. -/
def goEndsWith (s tail : String) : Bool := isLitHead tail.data.reverse s.data.reverse

/-- `strings.TrimSuffix`. -/
def goTrimTail (s tail : String) : String :=
  if goEndsWith s tail then ⟨s.data.take (s.data.length - tail.data.length)⟩ else s

/-- `strings.Contains`. -/
def goContains (s sub : String) : Bool := containsSubL s.data sub.data

/-- `strings.Split` (the separators used in the repository are never
empty, so only that case is modelled). -/
def goSplit (s sep : String) : List String :=
  match sep.data with
  | [] => [s]
  | c :: cs => (splitOnL c cs s.data).map (fun l => ⟨l⟩)

/-- `strings.Fields`. -/
def goFields (s : String) : List String := (fieldsL s.data).map (fun l => ⟨l⟩)

/-- `strings.Replace(s, old, new, 1)`. -/
def goReplace1 (s old new : String) : String := ⟨replace1L old.data new.data s.data⟩

/-! ## strconv -/

/-- Parse a non-empty digit run into a `Nat`; returns the unconsumed
rest as well. -/
def takeDigits (s : List Char) (acc : Nat) : Nat × Nat × List Char :=
  match s with
  | [] => (acc, 0, [])
  | c :: rest =>
    if c.isDigit then
      let r := takeDigits rest (acc * 10 + (c.toNat - 48))
      (r.1, r.2.1 + 1, r.2.2)
    else (acc, 0, c :: rest)

/-- `strconv.Atoi`: optional sign, one or more digits, nothing else,
64-bit range check. -/
def goAtoi (s : String) : Except String Int :=
  let l := s.data
  let (sign, digits) :=
    match l with
    | '+' :: rest => (1, rest)
    | '-' :: rest => (-1, rest)
    | _ => ((1 : Int), l)
  match takeDigits digits 0 with
  | (n, k, rest) =>
    if k = 0 ∨ ¬ rest.isEmpty ∨ k ≠ digits.length then .error "invalid syntax"
    else
      let v : Int := sign * (n : Int)
      if v < -(2 ^ 63) ∨ (2 ^ 63 - 1) < v then .error "value out of range"
      else .ok v

/-- `strconv.ParseFloat`, modelled on finite decimal syntax with exact
rational values: optional sign, then either `digits[.digits]` or
`.digits`, then an optional decimal exponent.  (Hex floats, infinities,
NaN and digit-separating underscores are not modelled; the repository
never produces them.) -/
def goParseFloat (s : String) : Option Rat :=
  let l := s.data
  let (sign, body) :=
    match l with
    | '+' :: rest => ((1 : Rat), rest)
    | '-' :: rest => (-1, rest)
    | _ => ((1 : Rat), l)
  let (ipart, icnt, afterInt) := takeDigits body 0
  let (fpart, fcnt, afterFrac) :=
    match afterInt with
    | '.' :: rest => let r := takeDigits rest 0; (r.1, r.2.1, r.2.2)
    | other => (0, 0, other)
  let hadDot := match afterInt with | '.' :: _ => true | _ => false
  if icnt = 0 ∧ fcnt = 0 then none
  else
    let mant : Rat := sign * ((ipart : Rat) + (fpart : Rat) / ((10 : Rat) ^ fcnt))
    match afterFrac with
    | [] => if hadDot ∨ icnt ≠ 0 then some mant else none
    | e :: rest =>
      if e = 'e' ∨ e = 'E' then
        let (esign, edigits) :=
          match rest with
          | '+' :: r2 => (true, r2)
          | '-' :: r2 => (false, r2)
          | _ => (true, rest)
        match takeDigits edigits 0 with
        | (ev, ek, erest) =>
          if ek = 0 ∨ ¬ erest.isEmpty ∨ ek ≠ edigits.length then none
          else some (if esign then mant * (10 : Rat) ^ ev else mant / (10 : Rat) ^ ev)
      else none

/-! ## A tiny regex engine

Implements Go `regexp`'s leftmost-first match semantics ("the match that
a backtracking search starting at the beginning of the regular
expression would have found first") for the pattern constructs the
repository uses.  Repetition only ever ranges over a single character
class in those patterns, which keeps the engine total. -/

inductive RE where
  /-- A case-insensitive literal (all the patterns carry `(?i)`). -/
  | lit : List Char → RE
  /-- Character-class repetition: class, at-least-one flag, lazy flag.
  `rep f true false` is `f+`, `rep f true true` is `f+?`,
  `rep f false false` is `f*`. -/
  | rep : (Char → Bool) → Bool → Bool → RE
  /-- A capturing group around a class repetition (every group in the
  repository's patterns has this shape): group index, class,
  at-least-one flag, lazy flag. -/
  | cap : Nat → (Char → Bool) → Bool → Bool → RE
  | seq : RE → RE → RE
  | alt : RE → RE → RE
  /-- Greedy `(?:...)?`. -/
  | opt : RE → RE
  /-- The `$` anchor (end of text; the patterns never set `(?m)`). -/
  | eos : RE

/-- Captures: group index paired with the captured characters. -/
abbrev Caps := List (Nat × List Char)

/-- Match a case-insensitive literal at the head of the input, returning
the rest of the input. -/
def matchLit : List Char → List Char → Option (List Char)
  | [], s => some s
  | _ :: _, [] => none
  | p :: ps, c :: cs => if ciEqChar p c then matchLit ps cs else none

/-- Greedy class repetition (zero or more) with backtracking: prefer
consuming another matching character, fall back to the continuation. -/
def repGreedy (f : Char → Bool) : List Char → (List Char → Option Caps) → Option Caps
  | [], k => k []
  | c :: rest, k =>
    if f c then (repGreedy f rest k).orElse (fun _ => k (c :: rest))
    else k (c :: rest)

/-- Lazy class repetition (zero or more): prefer the continuation, fall
back to consuming another matching character. -/
def repLazy (f : Char → Bool) : List Char → (List Char → Option Caps) → Option Caps
  | [], k => k []
  | c :: rest, k =>
    (k (c :: rest)).orElse (fun _ => if f c then repLazy f rest k else none)

/-- Greedy capturing repetition: like `repGreedy`, but accumulating the
consumed characters; the capture (group `i`, consumed prefix) is
prepended to the captures the continuation produces. -/
def capGreedy (i : Nat) (f : Char → Bool) (acc : List Char) :
    List Char → (List Char → Option Caps) → Option Caps
  | [], k => (k []).map (fun caps => (i, acc) :: caps)
  | c :: rest, k =>
    if f c then
      (capGreedy i f (acc ++ [c]) rest k).orElse
        (fun _ => (k (c :: rest)).map (fun caps => (i, acc) :: caps))
    else (k (c :: rest)).map (fun caps => (i, acc) :: caps)

/-- Lazy capturing repetition: prefer handing the capture so far to the
continuation, fall back to consuming one more class character. -/
def capLazy (i : Nat) (f : Char → Bool) (acc : List Char) :
    List Char → (List Char → Option Caps) → Option Caps
  | [], k => (k []).map (fun caps => (i, acc) :: caps)
  | c :: rest, k =>
    ((k (c :: rest)).map (fun caps => (i, acc) :: caps)).orElse
      (fun _ => if f c then capLazy i f (acc ++ [c]) rest k else none)

/-- The backtracking matcher in continuation-passing style.  The
continuation receives the unconsumed input; a group prepends its capture
to the captures produced downstream. -/
def reMatch : RE → List Char → (List Char → Option Caps) → Option Caps
  | .lit p, s, k =>
    match matchLit p s with
    | some rest => k rest
    | none => none
  | .rep f one lz, s, k =>
    if one then
      match s with
      | [] => none
      | c :: rest =>
        if f c then (if lz then repLazy f rest k else repGreedy f rest k) else none
    else (if lz then repLazy f s k else repGreedy f s k)
  | .cap i f one lz, s, k =>
    if one then
      match s with
      | [] => none
      | c :: rest =>
        if f c then (if lz then capLazy i f [c] rest k else capGreedy i f [c] rest k)
        else none
    else (if lz then capLazy i f [] s k else capGreedy i f [] s k)
  | .seq a b, s, k => reMatch a s (fun rest => reMatch b rest k)
  | .alt a b, s, k => (reMatch a s k).orElse (fun _ => reMatch b s k)
  | .opt r, s, k => (reMatch r s k).orElse (fun _ => k s)
  | .eos, s, k => match s with | [] => k [] | _ :: _ => none

/-- Leftmost search: try a match at each successive start position
(this is `FindStringSubmatch`'s position scan). -/
def reFindFrom (r : RE) : List Char → Option Caps
  | [] => reMatch r [] (fun _ => some [])
  | c :: rest =>
    match reMatch r (c :: rest) (fun _ => some []) with
    | some caps => some caps
    | none => reFindFrom r rest

/-- The capture of group `i`, as a string; `""` when the group did not
participate in the match (Go reports non-participating groups as empty
strings). -/
def capGet (caps : Caps) (i : Nat) : String :=
  match caps.find? (fun p => p.1 = i) with
  | some p => ⟨p.2⟩
  | none => ""

/-- Shorthand: sequence a list of pattern pieces. -/
def seqL (l : List RE) : RE := l.foldr RE.seq (RE.lit [])

/-- Shorthand: case-insensitive literal from a string. -/
def litS (s : String) : RE := RE.lit s.data

/-- `\s+`. -/
def wsP : RE := RE.rep reSpaceC true false

/-- `\s*`. -/
def ws0 : RE := RE.rep reSpaceC false false

/-- `(\w+)` as group `i`. -/
def wordG (i : Nat) : RE := RE.cap i reWord true false

/-- `(.+?)` as group `i`. -/
def lazyAnyG (i : Nat) : RE := RE.cap i reAny true true

/-- `(.+)` as group `i`. -/
def greedyAnyG (i : Nat) : RE := RE.cap i reAny true false

/-- `(\d+)` as group `i`. -/
def digitsG (i : Nat) : RE := RE.cap i reDigit true false

/-! ## The concrete patterns of simple_sql.go -/

/-- `(?i)SELECT\s+(.+?)\s+FROM` -/
def selectRe : RE := seqL [litS "SELECT", wsP, lazyAnyG 1, wsP, litS "FROM"]

/-- `(?i)FROM\s+(\w+)` -/
def fromRe : RE := seqL [litS "FROM", wsP, wordG 1]

/-- `(?i)WHERE\s+(.+?)(?:\s+ORDER\s+BY|\s+LIMIT|\s*;|$)` -/
def whereRe : RE :=
  seqL [litS "WHERE", wsP, lazyAnyG 1,
    RE.alt (seqL [wsP, litS "ORDER", wsP, litS "BY"])
      (RE.alt (seqL [wsP, litS "LIMIT"])
        (RE.alt (seqL [ws0, litS ";"]) RE.eos))]

/-- `(?i)(\w+)\s*OP\s*(.+)` for a literal operator `op`
(`regexp.QuoteMeta` only escapes; the escaped pattern still matches the
operator literally). -/
def condOpRe (op : String) : RE := seqL [wordG 1, ws0, litS op, ws0, greedyAnyG 2]

/-- `(?i)(\w+)\s+BETWEEN\s+(.+?)\s+AND\s+(.+)` -/
def betweenRe : RE :=
  seqL [wordG 1, wsP, litS "BETWEEN", wsP, lazyAnyG 2, wsP, litS "AND", wsP,
    greedyAnyG 3]

/-- `(?i)ORDER\s+BY\s+(.+?)(?:\s+LIMIT|\s*;|$)` -/
def orderRe : RE :=
  seqL [litS "ORDER", wsP, litS "BY", wsP, lazyAnyG 1,
    RE.alt (seqL [wsP, litS "LIMIT"]) (RE.alt (seqL [ws0, litS ";"]) RE.eos)]

/-- `(?i)LIMIT\s+(\d+)(?:\s+OFFSET\s+(\d+))?` -/
def limitRe : RE :=
  seqL [litS "LIMIT", wsP, digitsG 1, RE.opt (seqL [wsP, litS "OFFSET", wsP, digitsG 2])]

/-- `(?i)INSERT\s+INTO\s+(\w+)\s*\(([^)]+)\)\s*VALUES\s*\(([^)]+)\)` -/
def insertRe : RE :=
  seqL [litS "INSERT", wsP, litS "INTO", wsP, wordG 1, ws0, litS "(",
    RE.cap 2 reNotRParen true false, litS ")", ws0, litS "VALUES", ws0,
    litS "(", RE.cap 3 reNotRParen true false, litS ")"]

/-- `(?i)UPDATE\s+(\w+)\s+SET\s+(.+?)(?:\s+WHERE\s+(.+?))?(?:\s*;|$)` -/
def updateRe : RE :=
  seqL [litS "UPDATE", wsP, wordG 1, wsP, litS "SET", wsP, lazyAnyG 2,
    RE.opt (seqL [wsP, litS "WHERE", wsP, lazyAnyG 3]),
    RE.alt (seqL [ws0, litS ";"]) RE.eos]

/-- `(?i)DELETE\s+FROM\s+(\w+)(?:\s+WHERE\s+(.+?))?(?:\s*;|$)` -/
def deleteRe : RE :=
  seqL [litS "DELETE", wsP, litS "FROM", wsP, wordG 1,
    RE.opt (seqL [wsP, litS "WHERE", wsP, lazyAnyG 2]),
    RE.alt (seqL [ws0, litS ";"]) RE.eos]

/-! ## Data model -/

/-- A parsed SQL value (`interface{}` in Go): integer, float or string.
Floats are idealised as exact rationals, see `goParseFloat`. -/
inductive GoValue where
  | int : Int → GoValue
  | float : Rat → GoValue
  | str : String → GoValue
deriving DecidableEq, Repr

/-- Equality on `Except` results is decidable (needed to evaluate the
translator on concrete inputs inside proofs). -/
instance {e a : Type} [DecidableEq e] [DecidableEq a] : DecidableEq (Except e a) := fun x y =>
  match x, y with
  | .ok v, .ok w =>
    if h : v = w then isTrue (by rw [h]) else isFalse (by simp [h])
  | .error v, .error w =>
    if h : v = w then isTrue (by rw [h]) else isFalse (by simp [h])
  | .ok _, .error _ => isFalse (by simp)
  | .error _, .ok _ => isFalse (by simp)

/-- `translator.Condition`. -/
structure Condition where
  Column : String
  Operator : String
  Value : GoValue
deriving DecidableEq, Repr

/-- `translator.OrderByField`. -/
structure OrderByField where
  Column : String
  Order : String
deriving DecidableEq, Repr

/-- `translator.ParsedQuery`.  The `Updates` map is an association list
with insert-or-replace assignment. -/
structure ParsedQuery where
  QueryType : String
  TableName : String
  Columns : List String
  Values : List GoValue
  Updates : List (String × GoValue)
  Conditions : List Condition
  OrderBy : List OrderByField
  Limit : Int
  Offset : Int
deriving DecidableEq, Repr

/-- `grammar.WhereGrammar`; the `AllowedColumns` map (column name to
allowed operators) is an association list. -/
structure WhereGrammar where
  AllowedColumns : List (String × List String)
  Suggestions : List String
deriving DecidableEq, Repr

/-- `grammar.OrderByGrammar`. -/
structure OrderByGrammar where
  AllowedColumns : List String
  DefaultOrder : String
deriving DecidableEq, Repr

/-- `grammar.LimitGrammar`. -/
structure LimitGrammar where
  MaxLimit : Int
  DefaultLimit : Int
  HasPaging : Bool
deriving DecidableEq, Repr

/-- `grammar.SQLGrammar`. -/
structure SQLGrammar where
  TableName : String
  AllowedColumns : List String
  WhereClause : WhereGrammar
  OrderBy : OrderByGrammar
  Limit : LimitGrammar
deriving DecidableEq, Repr

/-- `parser.Parameter`. -/
structure Parameter where
  Name : String
  «Type» : String
  Location : String
  Required : Bool
  Format : String
  Enum : List String
  Operators : List String
deriving DecidableEq, Repr

/-- `parser.APICapability`. -/
structure APICapability where
  Path : String
  Method : String
  Parameters : List Parameter
  ResponseColumns : List String
  TableName : String
  BaseURL : String
  MaxResults : Int
  HasPaging : Bool
  PageParam : String
  LimitParam : String
deriving DecidableEq, Repr

/-- Go map lookup (`v, exists := m[k]`) on an association list. -/
def mapLookup {α : Type} (m : List (String × α)) (k : String) : Option α :=
  match m.find? (fun p => p.1 = k) with
  | some p => some p.2
  | none => none

/-- Go map assignment (`m[k] = v`) on an association list: replace the
existing binding or append a new one. -/
def mapInsert {α : Type} (m : List (String × α)) (k : String) (v : α) :
    List (String × α) :=
  match m with
  | [] => [(k, v)]
  | (k2, v2) :: rest => if k2 = k then (k, v) :: rest else (k2, v2) :: mapInsert rest k v

/-- The `contains` helper of simple_sql.go / generator.go / rest.go. -/
def contains (slice : List String) (item : String) : Bool :=
  match slice with
  | [] => false
  | s :: rest => if s = item then true else contains rest item

/-! ## The translator (simple_sql.go) -/

/-- The zero `ParsedQuery` created at the top of `ParseSQL`
(`&ParsedQuery{Updates: make(map[string]interface{})}`). -/
def emptyQuery : ParsedQuery :=
  { QueryType := "", TableName := "", Columns := [], Values := [], Updates := [],
    Conditions := [], OrderBy := [], Limit := 0, Offset := 0 }

/-- `parseValue`.  The Go function returns `(interface{}, error)` but no
branch ever produces a non-nil error, so it is embedded as total: strip
surrounding quotes, try `Atoi`, then `ParseFloat`, else keep the string. -/
def parseValue (valueStr : String) : GoValue :=
  let v := goTrimCut ['\'', '"'] valueStr
  match goAtoi v with
  | .ok n => .int n
  | .error _ =>
    match goParseFloat v with
    | some q => .float q
    | none => .str v

/-- `isColumnAllowed`. -/
def isColumnAllowed (g : SQLGrammar) (column : String) : Bool :=
  contains g.AllowedColumns column

/-- The operator list tried, in order, by `parseCondition`. -/
def operatorsList : List String := [">=", "<=", "!=", "<>", ">", "<", "=", "LIKE", "ILIKE"]

/-- The operator loop of `parseCondition`: try each operator pattern in
order; on the first pattern that matches, validate and build the
condition (the Go loop returns from inside its body). `none` means no
operator pattern matched at all. -/
def condOpLoop (g : SQLGrammar) (ops : List String) (condStr : String) :
    Option (Except String Condition) :=
  match ops with
  | [] => none
  | op :: rest =>
    match reFindFrom (condOpRe op) condStr.data with
    | none => condOpLoop g rest condStr
    | some caps =>
      let column := goTrimSpace (capGet caps 1)
      let valueStr := goTrimSpace (capGet caps 2)
      if ¬ isColumnAllowed g column then
        some (.error ("column " ++ column ++ " not available for filtering"))
      else
        match mapLookup g.WhereClause.AllowedColumns column with
        | none => some (.error ("operator " ++ op ++ " not supported for column " ++ column))
        | some allowedOps =>
          if ¬ contains allowedOps op then
            some (.error ("operator " ++ op ++ " not supported for column " ++ column))
          else
            some (.ok { Column := column, Operator := op, Value := parseValue valueStr })

/-- `parseCondition`. -/
def parseCondition (g : SQLGrammar) (condStr : String) : Except String Condition :=
  match condOpLoop g operatorsList condStr with
  | some r => r
  | none =>
    match reFindFrom betweenRe condStr.data with
    | some caps =>
      let column := goTrimSpace (capGet caps 1)
      let fromStr := goTrimSpace (capGet caps 2)
      let _toStr := goTrimSpace (capGet caps 3)
      if ¬ isColumnAllowed g column then
        .error ("column " ++ column ++ " not available for filtering")
      else
        match mapLookup g.WhereClause.AllowedColumns column with
        | none => .error ("BETWEEN operator not supported for column " ++ column)
        | some allowedOps =>
          if ¬ contains allowedOps "BETWEEN" then
            .error ("BETWEEN operator not supported for column " ++ column)
          else
            let fromValue := parseValue fromStr
            let _toValue := parseValue _toStr
            .ok { Column := column, Operator := ">=", Value := fromValue }
    | none => .error ("unsupported condition: " ++ condStr)

/-- `parseSelect`: the loop over an explicit column list. -/
def selectColsLoop (g : SQLGrammar) (cols : List String) (q : ParsedQuery) :
    Except String ParsedQuery :=
  match cols with
  | [] => .ok q
  | col :: rest =>
    let columnName := goTrimCut ['"', '\'', '`'] (goTrimSpace col)
    if ¬ isColumnAllowed g columnName then
      .error ("column " ++ columnName ++ " not available")
    else
      selectColsLoop g rest { q with Columns := q.Columns ++ [columnName] }

/-- `parseSelect`. -/
def parseSelect (g : SQLGrammar) (sql : String) (q : ParsedQuery) :
    Except String ParsedQuery :=
  match reFindFrom selectRe sql.data with
  | none => .error "invalid SELECT statement"
  | some caps =>
    let columnsStr := goTrimSpace (capGet caps 1)
    if columnsStr = "*" then
      .ok { q with Columns := q.Columns ++ g.AllowedColumns }
    else
      selectColsLoop g (goSplit columnsStr ",") q

/-- `parseFrom`. -/
def parseFrom (sql : String) (q : ParsedQuery) : Except String ParsedQuery :=
  match reFindFrom fromRe sql.data with
  | none => .error "no FROM clause found"
  | some caps => .ok { q with TableName := goTrimSpace (capGet caps 1) }

/-- The loop of `parseWhere` over the AND-split pieces. -/
def whereCondsLoop (g : SQLGrammar) (conds : List String) (q : ParsedQuery) :
    Except String ParsedQuery :=
  match conds with
  | [] => .ok q
  | condStr :: rest =>
    match parseCondition g (goTrimSpace condStr) with
    | .error e => .error e
    | .ok c => whereCondsLoop g rest { q with Conditions := q.Conditions ++ [c] }

/-- `parseWhere`. -/
def parseWhere (g : SQLGrammar) (sql : String) (q : ParsedQuery) :
    Except String ParsedQuery :=
  match reFindFrom whereRe sql.data with
  | none => .ok q
  | some caps =>
    let whereClause := goTrimSpace (capGet caps 1)
    whereCondsLoop g (goSplit whereClause " AND ") q

/-- The loop of `parseOrderBy` over the comma-split fields. -/
def orderFieldsLoop (g : SQLGrammar) (fields : List String) (q : ParsedQuery) :
    Except String ParsedQuery :=
  match fields with
  | [] => .ok q
  | fieldStr :: rest =>
    let parts := goFields (goTrimSpace fieldStr)
    match parts with
    | [] => orderFieldsLoop g rest q
    | column :: more =>
      let order :=
        match more with
        | [] => "ASC"
        | w :: _ => if goToUpper w = "DESC" then "DESC" else "ASC"
      if ¬ contains g.OrderBy.AllowedColumns column then
        .error ("column " ++ column ++ " not available for ordering")
      else
        orderFieldsLoop g rest
          { q with OrderBy := q.OrderBy ++ [{ Column := column, Order := order }] }

/-- `parseOrderBy`. -/
def parseOrderBy (g : SQLGrammar) (sql : String) (q : ParsedQuery) :
    Except String ParsedQuery :=
  match reFindFrom orderRe sql.data with
  | none => .ok q
  | some caps =>
    orderFieldsLoop g (goSplit (goTrimSpace (capGet caps 1)) ",") q

/-- The `LIMIT` pattern search, returning the digit capture and the
(possibly empty) OFFSET capture. -/
def limitFind (sql : String) : Option (String × String) :=
  match reFindFrom limitRe sql.data with
  | none => none
  | some caps => some (capGet caps 1, capGet caps 2)

/-- `parseLimit`: set the grammar default, then apply an explicit
`LIMIT` (rejecting values over the maximum) and `OFFSET`. -/
def parseLimit (g : SQLGrammar) (sql : String) (q : ParsedQuery) :
    Except String ParsedQuery :=
  let q := { q with Limit := g.Limit.DefaultLimit }
  match limitFind sql with
  | none => .ok q
  | some (limStr, offStr) =>
    match goAtoi limStr with
    | .error _ => .error ("invalid LIMIT value: " ++ limStr)
    | .ok lim =>
      if g.Limit.MaxLimit < lim then
        .error "LIMIT exceeds maximum allowed limit"
      else
        let q := { q with Limit := lim }
        if offStr ≠ "" then
          match goAtoi offStr with
          | .error _ => .error ("invalid OFFSET value: " ++ offStr)
          | .ok off => .ok { q with Offset := off }
        else .ok q

/-- `parseSelectQuery` up to (and excluding) `parseLimit`: columns,
FROM, table-name validation, WHERE, ORDER BY. -/
def selectPreLimit (g : SQLGrammar) (sql : String) (q : ParsedQuery) :
    Except String ParsedQuery :=
  match parseSelect g sql q with
  | .error e => .error e
  | .ok q =>
    match parseFrom sql q with
    | .error e => .error e
    | .ok q =>
      if q.TableName ≠ g.TableName then
        .error ("table " ++ q.TableName ++ " not found")
      else
        match parseWhere g sql q with
        | .error e => .error e
        | .ok q =>
          match parseOrderBy g sql q with
          | .error e => .error e
          | .ok q => .ok q

/-- `parseSelectQuery`. -/
def parseSelectQuery (g : SQLGrammar) (sql : String) (q : ParsedQuery) :
    Except String ParsedQuery :=
  match selectPreLimit g sql q with
  | .error e => .error e
  | .ok q => parseLimit g sql q

/-- The value loop of `parseInsertQuery` (`parseValue` never fails, see
`parseValue`). -/
def insertValues (vals : List String) : List GoValue :=
  vals.map (fun v => parseValue (goTrimSpace v))

/-- `parseInsertQuery`. -/
def parseInsertQuery (g : SQLGrammar) (sql : String) (q : ParsedQuery) :
    Except String ParsedQuery :=
  match reFindFrom insertRe sql.data with
  | none => .error "invalid INSERT statement format"
  | some caps =>
    let q := { q with TableName := goTrimSpace (capGet caps 1) }
    let expectedTable := goTrimTail g.TableName "_post"
    if q.TableName ≠ expectedTable then
      .error ("table " ++ q.TableName ++ " not found for INSERT")
    else
      let q := { q with
        Columns := q.Columns ++ (goSplit (capGet caps 2) ",").map goTrimSpace }
      let values := goSplit (capGet caps 3) ","
      if values.length ≠ q.Columns.length then
        .error "column count does not match value count"
      else
        .ok { q with Values := q.Values ++ insertValues values }

/-- The SET-assignment loop of `parseUpdateQuery`. -/
def setAssignLoop (assignments : List String) (q : ParsedQuery) :
    Except String ParsedQuery :=
  match assignments with
  | [] => .ok q
  | assignment :: rest =>
    match goSplit assignment "=" with
    | [p1, p2] =>
      let column := goTrimSpace p1
      let value := parseValue (goTrimSpace p2)
      setAssignLoop rest { q with Updates := mapInsert q.Updates column value }
    | _ => .error ("invalid SET clause: " ++ assignment)

/-- `parseUpdateQuery`. -/
def parseUpdateQuery (g : SQLGrammar) (sql : String) (q : ParsedQuery) :
    Except String ParsedQuery :=
  match reFindFrom updateRe sql.data with
  | none => .error "invalid UPDATE statement format"
  | some caps =>
    let q := { q with TableName := goTrimSpace (capGet caps 1) }
    let expectedTable := goTrimTail (goTrimTail g.TableName "_put") "_patch"
    if q.TableName ≠ expectedTable then
      .error ("table " ++ q.TableName ++ " not found for UPDATE")
    else
      match setAssignLoop (goSplit (capGet caps 2) ",") q with
      | .error e => .error e
      | .ok q =>
        if capGet caps 3 ≠ "" then
          match parseCondition g (capGet caps 3) with
          | .error e => .error e
          | .ok c => .ok { q with Conditions := q.Conditions ++ [c] }
        else .ok q

/-- `parseDeleteQuery`. -/
def parseDeleteQuery (g : SQLGrammar) (sql : String) (q : ParsedQuery) :
    Except String ParsedQuery :=
  match reFindFrom deleteRe sql.data with
  | none => .error "invalid DELETE statement format"
  | some caps =>
    let q := { q with TableName := goTrimSpace (capGet caps 1) }
    let expectedTable := goTrimTail g.TableName "_delete"
    if q.TableName ≠ expectedTable then
      .error ("table " ++ q.TableName ++ " not found for DELETE")
    else
      if capGet caps 2 ≠ "" then
        match parseCondition g (capGet caps 2) with
        | .error e => .error e
        | .ok c => .ok { q with Conditions := q.Conditions ++ [c] }
      else
        .error "DELETE without WHERE clause is not allowed for safety"

/-- The normalisation at the top of `ParseSQL`: trim whitespace and
append a trailing semicolon when absent. -/
def normalizeSQL (s : String) : String :=
  let t := goTrimSpace s
  if goEndsWith t ";" then t else t ++ ";"

/-- `ParseSQL`. -/
def ParseSQL (g : SQLGrammar) (sqlRaw : String) : Except String ParsedQuery :=
  let sql := normalizeSQL sqlRaw
  let sqlUpper := goToUpper sql
  if goStartsWith sqlUpper "SELECT" then
    parseSelectQuery g sql { emptyQuery with QueryType := "SELECT" }
  else if goStartsWith sqlUpper "INSERT" then
    parseInsertQuery g sql { emptyQuery with QueryType := "INSERT" }
  else if goStartsWith sqlUpper "UPDATE" then
    parseUpdateQuery g sql { emptyQuery with QueryType := "UPDATE" }
  else if goStartsWith sqlUpper "DELETE" then
    parseDeleteQuery g sql { emptyQuery with QueryType := "DELETE" }
  else .error "unsupported SQL statement type"

/-- `(ParseSQL ...).isOk`: whether a `ParsedQuery` was produced. -/
def exceptOk {ε α : Type} (e : Except ε α) : Bool :=
  match e with
  | .ok _ => true
  | .error _ => false

/-! ## The grammar generator (generator.go) -/

/-- `isPaginationParam`. -/
def isPaginationParam (paramName : String) : Bool :=
  let name := goToLower paramName
  let pagingParams := ["limit", "offset", "page", "per_page", "page_size", "size"]
  pagingParams.any (fun p => goContains name p)

/-- `extractColumnName`: strip the first matching operator suffix from
the lower-cased name; with no matching suffix the original name is
returned unchanged (original casing). -/
def extractColumnName (paramName : String) : String :=
  let suffixes := ["_gt", "_gte", "_lt", "_lte", "_ne", "_not", "_in", "_like",
    "_between", "_min", "_max"]
  let name := goToLower paramName
  match suffixes.find? (fun suf => goEndsWith name suf) with
  | some suf => goTrimTail name suf
  | none => paramName

/-- One suggestion pass of `generateSuggestions` for a parameter. -/
def paramSuggestions (param : Parameter) : List String :=
  let columnName := extractColumnName param.Name
  let s1 :=
    if (param.«Type» = "integer" ∨ param.«Type» = "number" ∨
        goContains (goToLower param.Name) "date") then
      let hasRange := param.Operators.any
        (fun op => op = ">" ∨ op = ">=" ∨ op = "<" ∨ op = "<=")
      if ¬ hasRange then
        ["Add range filtering for " ++ columnName]
      else []
    else []
  let s2 :=
    if param.«Type» = "string" ∧ ¬ contains param.Operators "LIKE" then
      ["Add partial text search for " ++ columnName]
    else []
  let s3 :=
    if param.Enum.length > 0 ∧ ¬ contains param.Operators "IN" then
      ["Add multiple value filtering for " ++ columnName]
    else []
  s1 ++ s2 ++ s3

/-- `generateSuggestions`. -/
def generateSuggestions (capability : APICapability) : List String :=
  let perParam := capability.Parameters.flatMap paramSuggestions
  let paging :=
    if ¬ capability.HasPaging then
      ["Add pagination support"]
    else []
  let sorting :=
    if capability.Parameters.length > 0 then
      let hasSorting := capability.Parameters.any (fun p =>
        goContains (goToLower p.Name) "sort" ∨ goContains (goToLower p.Name) "order")
      if ¬ hasSorting then ["Add sorting support"] else []
    else []
  perParam ++ paging ++ sorting

/-- The parameter loop of `GenerateGrammar`: build the WHERE-clause
operator map and, when no response columns exist, extend the
projectable/orderable columns from parameter names. -/
def grammarParamsLoop (hasRespCols : Bool) (params : List Parameter)
    (g : SQLGrammar) : SQLGrammar :=
  match params with
  | [] => g
  | param :: rest =>
    if isPaginationParam param.Name then grammarParamsLoop hasRespCols rest g
    else
      let columnName := extractColumnName param.Name
      if columnName = "" then grammarParamsLoop hasRespCols rest g
      else
        let g := { g with WhereClause := { g.WhereClause with
          AllowedColumns :=
            if param.Operators.length > 0 then
              mapInsert g.WhereClause.AllowedColumns columnName param.Operators
            else
              mapInsert g.WhereClause.AllowedColumns columnName ["="] } }
        let g :=
          if ¬ hasRespCols then
            { g with
              AllowedColumns := g.AllowedColumns ++ [columnName],
              OrderBy := { g.OrderBy with
                AllowedColumns := g.OrderBy.AllowedColumns ++ [columnName] } }
          else g
        grammarParamsLoop hasRespCols rest g

/-- `GenerateGrammar`. -/
def GenerateGrammar (capability : APICapability) : SQLGrammar :=
  let g : SQLGrammar :=
    { TableName := capability.TableName,
      AllowedColumns := [],
      WhereClause := { AllowedColumns := [], Suggestions := [] },
      OrderBy := { AllowedColumns := [], DefaultOrder := "" },
      Limit := { MaxLimit := capability.MaxResults, DefaultLimit := 100,
                 HasPaging := capability.HasPaging } }
  let hasRespCols := capability.ResponseColumns.length > 0
  let g :=
    if hasRespCols then
      { g with AllowedColumns := capability.ResponseColumns,
               OrderBy := { g.OrderBy with AllowedColumns := capability.ResponseColumns } }
    else g
  let g := grammarParamsLoop hasRespCols capability.Parameters g
  let g := { g with WhereClause := { g.WhereClause with
    Suggestions := generateSuggestions capability } }
  if g.Limit.MaxLimit = 0 then
    { g with Limit := { g.Limit with MaxLimit := 1000 } }
  else g

/-! ## The executor (rest.go), request-construction part -/

/-- The HTTP request an `ExecuteQuery` call would issue: method, URL and
optional JSON body (the body maps are association lists). -/
structure RequestPlan where
  method : String
  url : String
  body : Option (List (String × GoValue))
deriving DecidableEq, Repr

/-- `fmt.Sprintf("%v", value)` for the values the executor substitutes
into URLs.  Integers and strings print exactly as in Go; the float case
is a modelled decimal rendering (the claims never format floats). -/
def goFormatValue (v : GoValue) : String :=
  match v with
  | .int n => toString n
  | .str s => s
  | .float q => toString q.num ++ "/" ++ toString q.den

/-- The condition scan of `buildMutationURL`: find the first condition
on column `id` with operator `=` and splice its value into the path. -/
def mutationURLLoop (cap : APICapability) (baseURL : String) :
    List Condition → Except String String
  | [] => .error "UPDATE/DELETE requires WHERE id = value clause"
  | condition :: rest =>
    if condition.Column = "id" ∧ condition.Operator = "=" then
      if goContains cap.Path "{id}" then
        .ok (goReplace1 baseURL "{id}" (goFormatValue condition.Value))
      else
        .ok (baseURL ++ "/" ++ goFormatValue condition.Value)
    else mutationURLLoop cap baseURL rest

/-- `buildMutationURL`. -/
def buildMutationURL (cap : APICapability) (q : ParsedQuery) : Except String String :=
  mutationURLLoop cap (cap.BaseURL ++ cap.Path) q.Conditions

/-- The UPDATE and DELETE arms of `ExecuteQuery`, embedded up to the
point where the HTTP request leaves the process: on success the returned
`RequestPlan` is the request `makeRequest` would be handed (UPDATE uses
the Capability's verb and sends the SET map as body; DELETE sends no
body); on error no request is issued. -/
def executeMutation (cap : APICapability) (q : ParsedQuery) :
    Except String RequestPlan :=
  if q.QueryType = "UPDATE" then
    match buildMutationURL cap q with
    | .error e => .error ("failed to build API URL: " ++ e)
    | .ok apiURL => .ok { method := cap.Method, url := apiURL, body := some q.Updates }
  else if q.QueryType = "DELETE" then
    match buildMutationURL cap q with
    | .error e => .error ("failed to build API URL: " ++ e)
    | .ok apiURL => .ok { method := "DELETE", url := apiURL, body := none }
  else .error ("unsupported query type: " ++ q.QueryType)

/-! ## Basic lemmas about the helpers -/

theorem contains_iff_mem (l : List String) (a : String) :
    contains l a = true ↔ a ∈ l := by
  induction l with
  | nil => simp [contains]
  | cons x xs ih =>
    simp only [contains]
    by_cases h : x = a
    · simp [h]
    · simp [h, ih]
      intro hx
      exact absurd hx.symm h

/-- Column/operator validity of a condition with respect to a grammar:
the column is projectable and has a filter-map entry.  This is exactly
what `parseCondition` checks before building a condition. -/
def condValid (g : SQLGrammar) (c : Condition) : Prop :=
  c.Column ∈ g.AllowedColumns ∧
    (mapLookup g.WhereClause.AllowedColumns c.Column).isSome = true

theorem condOpLoop_ok_valid (g : SQLGrammar) (ops : List String) (s : String)
    (c : Condition) (h : condOpLoop g ops s = some (.ok c)) : condValid g c := by
  induction ops with
  | nil => simp [condOpLoop] at h
  | cons op rest ih =>
    rw [condOpLoop] at h
    cases hf : reFindFrom (condOpRe op) s.data with
    | none =>
      rw [hf] at h
      exact ih h
    | some caps =>
      rw [hf] at h
      by_cases hcol : isColumnAllowed g (goTrimSpace (capGet caps 1)) = true
      · cases hm : mapLookup g.WhereClause.AllowedColumns (goTrimSpace (capGet caps 1)) with
        | none => simp [hcol, hm] at h
        | some allowedOps =>
          by_cases hop : contains allowedOps op = true
          · simp only [hcol, hm, hop, not_true, if_false, if_neg] at h
            simp only [Option.some.injEq, Except.ok.injEq] at h
            refine ⟨?_, ?_⟩
            · rw [← h]
              exact (contains_iff_mem _ _).mp hcol
            · rw [← h]
              simp [hm]
          · simp [hcol, hm, hop] at h
      · simp [hcol] at h

theorem parseCondition_ok_valid (g : SQLGrammar) (s : String) (c : Condition)
    (h : parseCondition g s = .ok c) : condValid g c := by
  rw [parseCondition] at h
  cases hl : condOpLoop g operatorsList s with
  | some r =>
    rw [hl] at h
    cases r with
    | ok c2 =>
      cases h
      exact condOpLoop_ok_valid g operatorsList s c hl
    | error e => simp at h
  | none =>
    rw [hl] at h
    cases hf : reFindFrom betweenRe s.data with
    | none => rw [hf] at h; simp at h
    | some caps =>
      rw [hf] at h
      by_cases hcol : isColumnAllowed g (goTrimSpace (capGet caps 1)) = true
      · cases hm : mapLookup g.WhereClause.AllowedColumns (goTrimSpace (capGet caps 1)) with
        | none => simp [hcol, hm] at h
        | some allowedOps =>
          by_cases hop : contains allowedOps "BETWEEN" = true
          · simp only [hcol, hm, hop, not_true, if_false, if_neg] at h
            simp only [Except.ok.injEq] at h
            refine ⟨?_, ?_⟩
            · rw [← h]
              exact (contains_iff_mem _ _).mp hcol
            · rw [← h]
              simp [hm]
          · simp [hcol, hm, hop] at h
      · simp [hcol] at h

/-! ## Frame lemmas for the SELECT pipeline -/

theorem selectColsLoop_frame (g : SQLGrammar) (cols : List String)
    (q q2 : ParsedQuery) (h : selectColsLoop g cols q = .ok q2) :
    q2.Conditions = q.Conditions ∧ q2.OrderBy = q.OrderBy ∧
    q2.QueryType = q.QueryType ∧ q2.TableName = q.TableName ∧
    (∀ col ∈ q2.Columns, col ∈ q.Columns ∨ col ∈ g.AllowedColumns) := by
  induction cols generalizing q with
  | nil =>
    rw [selectColsLoop] at h
    cases h
    exact ⟨rfl, rfl, rfl, rfl, fun col hc => Or.inl hc⟩
  | cons col rest ih =>
    rw [selectColsLoop] at h
    by_cases hcol :
        isColumnAllowed g (goTrimCut ['"', '\'', '`'] (goTrimSpace col)) = true
    · rw [if_neg (by simp [hcol])] at h
      obtain ⟨h1, h2, h3, h4, h5⟩ := ih _ h
      refine ⟨h1, h2, h3, h4, fun c hc => ?_⟩
      rcases h5 c hc with hin | hin
      · simp only [List.mem_append, List.mem_singleton] at hin
        rcases hin with hin | hin
        · exact Or.inl hin
        · subst hin
          exact Or.inr ((contains_iff_mem _ _).mp hcol)
      · exact Or.inr hin
    · rw [if_pos (by simp [hcol])] at h
      simp at h

theorem parseSelect_frame (g : SQLGrammar) (sql : String) (q q2 : ParsedQuery)
    (h : parseSelect g sql q = .ok q2) :
    q2.Conditions = q.Conditions ∧ q2.OrderBy = q.OrderBy ∧
    q2.QueryType = q.QueryType ∧ q2.TableName = q.TableName ∧
    (∀ col ∈ q2.Columns, col ∈ q.Columns ∨ col ∈ g.AllowedColumns) := by
  rw [parseSelect] at h
  split at h
  · simp at h
  · simp only at h
    split at h
    · cases h
      refine ⟨rfl, rfl, rfl, rfl, fun col hc => ?_⟩
      simpa using hc
    · exact selectColsLoop_frame g _ q q2 h

theorem parseFrom_frame (sql : String) (q q2 : ParsedQuery)
    (h : parseFrom sql q = .ok q2) :
    q2.Conditions = q.Conditions ∧ q2.OrderBy = q.OrderBy ∧
    q2.QueryType = q.QueryType ∧ q2.Columns = q.Columns := by
  rw [parseFrom] at h
  split at h
  · simp at h
  · cases h
    exact ⟨rfl, rfl, rfl, rfl⟩

theorem whereCondsLoop_frame (g : SQLGrammar) (conds : List String)
    (q q2 : ParsedQuery) (h : whereCondsLoop g conds q = .ok q2) :
    q2.Columns = q.Columns ∧ q2.OrderBy = q.OrderBy ∧
    q2.QueryType = q.QueryType ∧ q2.TableName = q.TableName ∧
    (∀ c ∈ q2.Conditions, c ∈ q.Conditions ∨ condValid g c) := by
  induction conds generalizing q with
  | nil =>
    rw [whereCondsLoop] at h
    cases h
    exact ⟨rfl, rfl, rfl, rfl, fun c hc => Or.inl hc⟩
  | cons condStr rest ih =>
    rw [whereCondsLoop] at h
    split at h
    · simp at h
    next c0 hp =>
      obtain ⟨h1, h2, h3, h4, h5⟩ := ih _ h
      refine ⟨h1, h2, h3, h4, fun c hc => ?_⟩
      rcases h5 c hc with hin | hv
      · simp only [List.mem_append, List.mem_singleton] at hin
        rcases hin with hin | hin
        · exact Or.inl hin
        · subst hin
          exact Or.inr (parseCondition_ok_valid g _ _ hp)
      · exact Or.inr hv

theorem parseWhere_frame (g : SQLGrammar) (sql : String) (q q2 : ParsedQuery)
    (h : parseWhere g sql q = .ok q2) :
    q2.Columns = q.Columns ∧ q2.OrderBy = q.OrderBy ∧
    q2.QueryType = q.QueryType ∧ q2.TableName = q.TableName ∧
    (∀ c ∈ q2.Conditions, c ∈ q.Conditions ∨ condValid g c) := by
  rw [parseWhere] at h
  split at h
  · cases h
    exact ⟨rfl, rfl, rfl, rfl, fun c hc => Or.inl hc⟩
  · exact whereCondsLoop_frame g _ q q2 h

theorem orderFieldsLoop_frame (g : SQLGrammar) (fields : List String)
    (q q2 : ParsedQuery) (h : orderFieldsLoop g fields q = .ok q2) :
    q2.Columns = q.Columns ∧ q2.Conditions = q.Conditions ∧
    q2.QueryType = q.QueryType ∧ q2.TableName = q.TableName ∧
    (∀ o ∈ q2.OrderBy, o ∈ q.OrderBy ∨ o.Column ∈ g.OrderBy.AllowedColumns) := by
  induction fields generalizing q with
  | nil =>
    rw [orderFieldsLoop] at h
    cases h
    exact ⟨rfl, rfl, rfl, rfl, fun o ho => Or.inl ho⟩
  | cons fieldStr rest ih =>
    rw [orderFieldsLoop] at h
    split at h
    · exact ih _ h
    next column more hp =>
      simp only at h
      split at h
      · simp at h
      next hcol =>
        rw [not_not] at hcol
        obtain ⟨h1, h2, h3, h4, h5⟩ := ih _ h
        refine ⟨h1, h2, h3, h4, fun o ho => ?_⟩
        rcases h5 o ho with hin | hv
        · simp only [List.mem_append, List.mem_singleton] at hin
          rcases hin with hin | hin
          · exact Or.inl hin
          · subst hin
            exact Or.inr ((contains_iff_mem _ _).mp hcol)
        · exact Or.inr hv

theorem parseOrderBy_frame (g : SQLGrammar) (sql : String) (q q2 : ParsedQuery)
    (h : parseOrderBy g sql q = .ok q2) :
    q2.Columns = q.Columns ∧ q2.Conditions = q.Conditions ∧
    q2.QueryType = q.QueryType ∧ q2.TableName = q.TableName ∧
    (∀ o ∈ q2.OrderBy, o ∈ q.OrderBy ∨ o.Column ∈ g.OrderBy.AllowedColumns) := by
  rw [parseOrderBy] at h
  split at h
  · cases h
    exact ⟨rfl, rfl, rfl, rfl, fun o ho => Or.inl ho⟩
  · exact orderFieldsLoop_frame g _ q q2 h

theorem parseLimit_frame (g : SQLGrammar) (sql : String) (q q2 : ParsedQuery)
    (h : parseLimit g sql q = .ok q2) :
    q2.Columns = q.Columns ∧ q2.Conditions = q.Conditions ∧
    q2.QueryType = q.QueryType ∧ q2.OrderBy = q.OrderBy ∧
    q2.TableName = q.TableName := by
  cases hf : limitFind sql with
  | none =>
    simp only [parseLimit, hf, Except.ok.injEq] at h
    subst h
    exact ⟨rfl, rfl, rfl, rfl, rfl⟩
  | some p =>
    obtain ⟨limStr, offStr⟩ := p
    cases ha : goAtoi limStr with
    | error e =>
      simp only [parseLimit, hf, ha] at h
      exact Except.noConfusion h
    | ok lim =>
      by_cases hmax : g.Limit.MaxLimit < lim
      · simp only [parseLimit, hf, ha, if_pos hmax] at h
        exact Except.noConfusion h
      · by_cases hoff : offStr = ""
        · simp only [parseLimit, hf, ha, if_neg hmax, hoff, ne_eq, not_true,
            if_false, Except.ok.injEq] at h
          subst h
          exact ⟨rfl, rfl, rfl, rfl, rfl⟩
        · cases hb : goAtoi offStr with
          | error e =>
            simp only [parseLimit, hf, ha, if_neg hmax, ne_eq, hoff, not_false_iff,
              if_true, hb] at h
            exact Except.noConfusion h
          | ok off =>
            simp only [parseLimit, hf, ha, if_neg hmax, ne_eq, hoff, not_false_iff,
              if_true, hb, Except.ok.injEq] at h
            subst h
            exact ⟨rfl, rfl, rfl, rfl, rfl⟩

theorem selectPreLimit_frame (g : SQLGrammar) (sql : String) (q q2 : ParsedQuery)
    (h : selectPreLimit g sql q = .ok q2) :
    q2.QueryType = q.QueryType ∧
    (∀ col ∈ q2.Columns, col ∈ q.Columns ∨ col ∈ g.AllowedColumns) ∧
    (∀ c ∈ q2.Conditions, c ∈ q.Conditions ∨ condValid g c) ∧
    (∀ o ∈ q2.OrderBy, o ∈ q.OrderBy ∨ o.Column ∈ g.OrderBy.AllowedColumns) := by
  rw [selectPreLimit] at h
  split at h
  · exact Except.noConfusion h
  next qa ha =>
    split at h
    · exact Except.noConfusion h
    next qb hb =>
      split at h
      · exact Except.noConfusion h
      next hTable =>
        split at h
        · exact Except.noConfusion h
        next qc hc =>
          split at h
          · exact Except.noConfusion h
          next qd hd =>
            cases h
            obtain ⟨sc, so, st, stn, scols⟩ := parseSelect_frame g sql q qa ha
            obtain ⟨fc, fo, ft, fcols⟩ := parseFrom_frame sql qa qb hb
            obtain ⟨wc, wo, wt, wtn, wconds⟩ := parseWhere_frame g sql qb qc hc
            obtain ⟨oc, ocond, ot, otn, oords⟩ := parseOrderBy_frame g sql qc q2 hd
            refine ⟨by rw [ot, wt, ft, st], ?_, ?_, ?_⟩
            · intro col hcol
              rw [oc, wc, fcols] at hcol
              exact scols col hcol
            · intro c hcond
              rw [ocond] at hcond
              rcases wconds c hcond with hin | hv
              · rw [fc, sc] at hin
                exact Or.inl hin
              · exact Or.inr hv
            · intro o ho
              rcases oords o ho with hin | hv
              · rw [wo, fo, so] at hin
                exact Or.inl hin
              · exact Or.inr hv

theorem parseSelectQuery_frame (g : SQLGrammar) (sql : String) (q q2 : ParsedQuery)
    (h : parseSelectQuery g sql q = .ok q2) :
    q2.QueryType = q.QueryType ∧
    (∀ col ∈ q2.Columns, col ∈ q.Columns ∨ col ∈ g.AllowedColumns) ∧
    (∀ c ∈ q2.Conditions, c ∈ q.Conditions ∨ condValid g c) ∧
    (∀ o ∈ q2.OrderBy, o ∈ q.OrderBy ∨ o.Column ∈ g.OrderBy.AllowedColumns) := by
  rw [parseSelectQuery] at h
  split at h
  · exact Except.noConfusion h
  next qd hd =>
    obtain ⟨lc, lcond, lt, lo, ltn⟩ := parseLimit_frame g sql qd q2 h
    obtain ⟨pt, pcols, pconds, pords⟩ := selectPreLimit_frame g sql q qd hd
    refine ⟨by rw [lt, pt], ?_, ?_, ?_⟩
    · intro col hcol
      rw [lc] at hcol
      exact pcols col hcol
    · intro c hc
      rw [lcond] at hc
      exact pconds c hc
    · intro o ho
      rw [lo] at ho
      exact pords o ho

/-! ## Frame lemmas for INSERT / UPDATE / DELETE -/

theorem parseInsertQuery_frame (g : SQLGrammar) (sql : String) (q q2 : ParsedQuery)
    (h : parseInsertQuery g sql q = .ok q2) :
    q2.Conditions = q.Conditions ∧ q2.OrderBy = q.OrderBy ∧
    q2.QueryType = q.QueryType := by
  rw [parseInsertQuery] at h
  split at h
  · exact Except.noConfusion h
  next caps =>
    simp only at h
    split at h
    · exact Except.noConfusion h
    · split at h
      · exact Except.noConfusion h
      · cases h
        exact ⟨rfl, rfl, rfl⟩

theorem setAssignLoop_frame (assignments : List String) (q q2 : ParsedQuery)
    (h : setAssignLoop assignments q = .ok q2) :
    q2.Conditions = q.Conditions ∧ q2.OrderBy = q.OrderBy ∧
    q2.QueryType = q.QueryType ∧ q2.Columns = q.Columns := by
  induction assignments generalizing q with
  | nil =>
    rw [setAssignLoop] at h
    cases h
    exact ⟨rfl, rfl, rfl, rfl⟩
  | cons a rest ih =>
    rw [setAssignLoop] at h
    split at h
    · simp only at h
      have hrec := ih _ h
      exact hrec
    · exact Except.noConfusion h

theorem parseUpdateQuery_frame (g : SQLGrammar) (sql : String) (q q2 : ParsedQuery)
    (h : parseUpdateQuery g sql q = .ok q2) :
    q2.OrderBy = q.OrderBy ∧ q2.QueryType = q.QueryType ∧
    q2.Columns = q.Columns ∧
    (∀ c ∈ q2.Conditions, c ∈ q.Conditions ∨ condValid g c) ∧
    q2.Conditions.length ≤ q.Conditions.length + 1 := by
  rw [parseUpdateQuery] at h
  split at h
  · exact Except.noConfusion h
  next caps =>
    simp only at h
    split at h
    · exact Except.noConfusion h
    · split at h
      · exact Except.noConfusion h
      next qs hs =>
        obtain ⟨s1, s2, s3, s4⟩ := setAssignLoop_frame _ _ qs hs
        split at h
        · split at h
          · exact Except.noConfusion h
          next c0 hc0 =>
            cases h
            refine ⟨s2, s3, s4, ?_, ?_⟩
            · intro c hc
              simp only [List.mem_append, List.mem_singleton] at hc
              rcases hc with hc | hc
              · rw [s1] at hc
                exact Or.inl hc
              · subst hc
                exact Or.inr (parseCondition_ok_valid g _ _ hc0)
            · simp only [List.length_append, List.length_singleton, s1]
              omega
        · cases h
          refine ⟨s2, s3, s4, ?_, ?_⟩
          · intro c hc
            rw [s1] at hc
            exact Or.inl hc
          · simp only [s1]
            omega

theorem parseDeleteQuery_frame (g : SQLGrammar) (sql : String) (q q2 : ParsedQuery)
    (h : parseDeleteQuery g sql q = .ok q2) :
    q2.OrderBy = q.OrderBy ∧ q2.QueryType = q.QueryType ∧
    q2.Columns = q.Columns ∧
    (∀ c ∈ q2.Conditions, c ∈ q.Conditions ∨ condValid g c) ∧
    (∃ c0, q2.Conditions = q.Conditions ++ [c0]) := by
  rw [parseDeleteQuery] at h
  split at h
  · exact Except.noConfusion h
  next caps =>
    simp only at h
    split at h
    · exact Except.noConfusion h
    · split at h
      · split at h
        · exact Except.noConfusion h
        next c0 hc0 =>
          cases h
          refine ⟨rfl, rfl, rfl, ?_, ⟨c0, rfl⟩⟩
          intro c hc
          simp only [List.mem_append, List.mem_singleton] at hc
          rcases hc with hc | hc
          · exact Or.inl hc
          · subst hc
            exact Or.inr (parseCondition_ok_valid g _ _ hc0)
      · exact Except.noConfusion h

/-! ## Concrete fixtures used by the claims -/

/-- A small grammar over table `pets` used for concrete inputs. -/
def petsGrammar : SQLGrammar :=
  { TableName := "pets", AllowedColumns := ["id", "name"],
    WhereClause := { AllowedColumns := [("id", ["="])], Suggestions := [] },
    OrderBy := { AllowedColumns := ["id"], DefaultOrder := "ASC" },
    Limit := { MaxLimit := 1000, DefaultLimit := 100, HasPaging := false } }

/-- What `ParseSQL petsGrammar "INSERT INTO pets (bogus) VALUES (1)"`
produces: a ParsedQuery whose INSERT column list holds `bogus`. -/
def petsInsertResult : ParsedQuery :=
  { QueryType := "INSERT", TableName := "pets", Columns := ["bogus"],
    Values := [.int 1], Updates := [], Conditions := [], OrderBy := [],
    Limit := 0, Offset := 0 }

/-- C1, counterexample: the INSERT column list is not validated.
`ParseSQL` accepts `INSERT INTO pets (bogus) VALUES (1)` against a
grammar in which `bogus` is neither projectable, nor filterable, nor
orderable, and the returned ParsedQuery references `bogus` in its
column list. -/
theorem c1_insert_column_unvalidated :
    ParseSQL petsGrammar "INSERT INTO pets (bogus) VALUES (1)" = .ok petsInsertResult ∧
    "bogus" ∈ petsInsertResult.Columns ∧
    "bogus" ∉ petsGrammar.AllowedColumns ∧
    mapLookup petsGrammar.WhereClause.AllowedColumns "bogus" = none ∧
    "bogus" ∉ petsGrammar.OrderBy.AllowedColumns := by
  refine ⟨by decide, by decide, by decide, by decide, by decide⟩

/-- C1, amended: whenever `ParseSQL` returns a ParsedQuery, every
condition column is in the grammar's projectable list and filter map,
every order-by column is in the orderable list, and every projected
column of a SELECT is in the projectable list.  (INSERT column lists
and UPDATE assignment keys are not validated, which is what the
counterexample exhibits.) -/
theorem c1_validated_references (g : SQLGrammar) (sql : String) (q : ParsedQuery)
    (h : ParseSQL g sql = .ok q) :
    (∀ c ∈ q.Conditions, c.Column ∈ g.AllowedColumns ∧
      (mapLookup g.WhereClause.AllowedColumns c.Column).isSome = true) ∧
    (∀ o ∈ q.OrderBy, o.Column ∈ g.OrderBy.AllowedColumns) ∧
    (q.QueryType = "SELECT" → ∀ col ∈ q.Columns, col ∈ g.AllowedColumns) := by
  rw [ParseSQL] at h
  simp only at h
  split at h
  · obtain ⟨ht, hcols, hconds, hords⟩ := parseSelectQuery_frame g _ _ q h
    refine ⟨?_, ?_, ?_⟩
    · intro c hc
      rcases hconds c hc with hin | hv
      · simp [emptyQuery] at hin
      · exact hv
    · intro o ho
      rcases hords o ho with hin | hv
      · simp [emptyQuery] at hin
      · exact hv
    · intro _ col hcol
      rcases hcols col hcol with hin | hv
      · simp [emptyQuery] at hin
      · exact hv
  · split at h
    · obtain ⟨hconds, hords, ht⟩ := parseInsertQuery_frame g _ _ q h
      refine ⟨?_, ?_, ?_⟩
      · intro c hc
        rw [hconds] at hc
        simp [emptyQuery] at hc
      · intro o ho
        rw [hords] at ho
        simp [emptyQuery] at ho
      · intro hq
        rw [ht] at hq
        simp [emptyQuery] at hq
    · split at h
      · obtain ⟨hords, ht, hcolsEq, hconds, _⟩ := parseUpdateQuery_frame g _ _ q h
        refine ⟨?_, ?_, ?_⟩
        · intro c hc
          rcases hconds c hc with hin | hv
          · simp [emptyQuery] at hin
          · exact hv
        · intro o ho
          rw [hords] at ho
          simp [emptyQuery] at ho
        · intro hq
          rw [ht] at hq
          simp [emptyQuery] at hq
      · split at h
        · obtain ⟨hords, ht, hcolsEq, hconds, _⟩ := parseDeleteQuery_frame g _ _ q h
          refine ⟨?_, ?_, ?_⟩
          · intro c hc
            rcases hconds c hc with hin | hv
            · simp [emptyQuery] at hin
            · exact hv
          · intro o ho
            rw [hords] at ho
            simp [emptyQuery] at ho
          · intro hq
            rw [ht] at hq
            simp [emptyQuery] at hq
        · exact Except.noConfusion h

/-- The ParsedQuery `ParseSQL` returns for
`SELECT id FROM pets WHERE id = 3 ORDER BY id` against `petsGrammar`. -/
def petsSelectResult : ParsedQuery :=
  { QueryType := "SELECT", TableName := "pets", Columns := ["id"],
    Values := [], Updates := [],
    Conditions := [{ Column := "id", Operator := "=", Value := .int 3 }],
    OrderBy := [{ Column := "id", Order := "ASC" }], Limit := 100, Offset := 0 }

/-- C1, witness for the amended theorem at a concrete successful parse. -/
theorem c1_validated_references_witness :
    (∀ c ∈ petsSelectResult.Conditions, c.Column ∈ petsGrammar.AllowedColumns ∧
      (mapLookup petsGrammar.WhereClause.AllowedColumns c.Column).isSome = true) ∧
    (∀ o ∈ petsSelectResult.OrderBy, o.Column ∈ petsGrammar.OrderBy.AllowedColumns) ∧
    (petsSelectResult.QueryType = "SELECT" →
      ∀ col ∈ petsSelectResult.Columns, col ∈ petsGrammar.AllowedColumns) :=
  c1_validated_references petsGrammar "SELECT id FROM pets WHERE id = 3 ORDER BY id"
    petsSelectResult (by decide)

/-! ## C2: DELETE requires a WHERE clause -/

/-- The delete pattern on the spec scenario input: only the table group
participates; the WHERE group is absent. -/
theorem deleteFind_findByStatus :
    reFindFrom deleteRe ("DELETE FROM findByStatus;").data =
      some [(1, "findByStatus".data)] := by decide

/-- The ParsedQuery for `DELETE FROM pets WHERE id = 5` against
`petsGrammar`. -/
def petsDeleteResult : ParsedQuery :=
  { QueryType := "DELETE", TableName := "pets", Columns := [], Values := [],
    Updates := [],
    Conditions := [{ Column := "id", Operator := "=", Value := .int 5 }],
    OrderBy := [], Limit := 0, Offset := 0 }

/-- C2: for every grammar, `DELETE FROM findByStatus` (no WHERE clause)
is rejected — whatever the grammar's table name is — and any
successfully parsed DELETE carries at least one condition. -/
theorem c2_delete_without_where_rejected :
    (∀ g : SQLGrammar, exceptOk (ParseSQL g "DELETE FROM findByStatus") = false) ∧
    (∀ (g : SQLGrammar) (sql : String) (q : ParsedQuery),
      ParseSQL g sql = .ok q → q.QueryType = "DELETE" → q.Conditions ≠ []) := by
  constructor
  · intro g
    show exceptOk (parseDeleteQuery g "DELETE FROM findByStatus;"
      { emptyQuery with QueryType := "DELETE" }) = false
    rw [parseDeleteQuery, deleteFind_findByStatus]
    simp only
    split
    · rfl
    · rfl
  · intro g sql q h hq hnil
    rw [ParseSQL] at h
    simp only at h
    split at h
    · obtain ⟨ht, _, _, _⟩ := parseSelectQuery_frame g _ _ q h
      rw [ht] at hq
      simp [emptyQuery] at hq
    · split at h
      · obtain ⟨_, _, ht⟩ := parseInsertQuery_frame g _ _ q h
        rw [ht] at hq
        simp [emptyQuery] at hq
      · split at h
        · obtain ⟨_, ht, _, _, _⟩ := parseUpdateQuery_frame g _ _ q h
          rw [ht] at hq
          simp [emptyQuery] at hq
        · split at h
          · obtain ⟨_, _, _, _, c0, hc0⟩ := parseDeleteQuery_frame g _ _ q h
            rw [hc0] at hnil
            simp [emptyQuery] at hnil
          · exact Except.noConfusion h

/-- C2, witness: the rejection at a concrete grammar, and a concrete
successful DELETE whose condition list is non-empty. -/
theorem c2_delete_without_where_rejected_witness :
    exceptOk (ParseSQL petsGrammar "DELETE FROM findByStatus") = false ∧
    petsDeleteResult.Conditions ≠ [] :=
  ⟨c2_delete_without_where_rejected.1 petsGrammar,
   c2_delete_without_where_rejected.2 petsGrammar "DELETE FROM pets WHERE id = 5"
     petsDeleteResult (by decide) (by decide)⟩

/-! ## C7: UPDATE WHERE is not split on AND -/

/-- The grammar used for the UPDATE claims: table `pets`, filterable
columns `id`, `b`, `c`, each with `=`. -/
def updGrammar : SQLGrammar :=
  { TableName := "pets", AllowedColumns := ["id", "b", "c"],
    WhereClause := { AllowedColumns := [("id", ["="]), ("b", ["="]), ("c", ["="])],
                     Suggestions := [] },
    OrderBy := { AllowedColumns := ["id"], DefaultOrder := "ASC" },
    Limit := { MaxLimit := 1000, DefaultLimit := 100, HasPaging := false } }

/-- What `ParseSQL updGrammar "UPDATE pets SET a = 1 WHERE b = 2 AND c = 3"`
actually produces: one condition whose value is the raw remainder
`2 AND c = 3`. -/
def updMultiAndResult : ParsedQuery :=
  { QueryType := "UPDATE", TableName := "pets", Columns := [], Values := [],
    Updates := [("a", .int 1)],
    Conditions := [{ Column := "b", Operator := "=", Value := .str "2 AND c = 3" }],
    OrderBy := [], Limit := 0, Offset := 0 }

/-- C7, counterexample: an UPDATE whose WHERE contains two AND-joined
conditions does not yield those two conditions; the whole clause is
consumed by one condition whose value is the remainder text, and the
second condition is absent. -/
theorem c7_update_where_not_split :
    ParseSQL updGrammar "UPDATE pets SET a = 1 WHERE b = 2 AND c = 3" =
      .ok updMultiAndResult ∧
    Condition.mk "b" "=" (.int 2) ∉ updMultiAndResult.Conditions ∧
    Condition.mk "c" "=" (.int 3) ∉ updMultiAndResult.Conditions := by
  refine ⟨by decide, by decide, by decide⟩

/-- C7, amended: `parseUpdateQuery` hands the whole WHERE text to
`parseCondition` as one atomic condition (no split on the AND keyword),
so a successfully parsed UPDATE never carries more than one condition;
on the two-condition input above the single condition swallows the
remainder of the clause as its value. -/
theorem c7_update_where_single_condition :
    (∀ (g : SQLGrammar) (sql : String) (q : ParsedQuery),
      ParseSQL g sql = .ok q → q.QueryType = "UPDATE" → q.Conditions.length ≤ 1) ∧
    ParseSQL updGrammar "UPDATE pets SET a = 1 WHERE b = 2 AND c = 3" =
      .ok updMultiAndResult := by
  constructor
  · intro g sql q h hq
    rw [ParseSQL] at h
    simp only at h
    split at h
    · obtain ⟨ht, _, _, _⟩ := parseSelectQuery_frame g _ _ q h
      rw [ht] at hq
      simp [emptyQuery] at hq
    · split at h
      · obtain ⟨_, _, ht⟩ := parseInsertQuery_frame g _ _ q h
        rw [ht] at hq
        simp [emptyQuery] at hq
      · split at h
        · obtain ⟨_, _, _, _, hlen⟩ := parseUpdateQuery_frame g _ _ q h
          simpa [emptyQuery] using hlen
        · split at h
          · obtain ⟨_, ht, _, _, _⟩ := parseDeleteQuery_frame g _ _ q h
            rw [ht] at hq
            simp [emptyQuery] at hq
          · exact Except.noConfusion h
  · decide

/-- C7, witness for the amended theorem at the concrete UPDATE. -/
theorem c7_update_where_single_condition_witness :
    updMultiAndResult.Conditions.length ≤ 1 :=
  c7_update_where_single_condition.1 updGrammar
    "UPDATE pets SET a = 1 WHERE b = 2 AND c = 3" updMultiAndResult
    (by decide) (by decide)

/-! ## C10: quote stripping happens before numeric parsing -/

/-- `strings.Trim` is unaffected by wrapping the input in one more pair
of cutset characters. -/
theorem trimCut_wrap (cut : List Char) (a b : Char) (ha : cut.contains a = true)
    (hb : cut.contains b = true) (s : List Char) :
    trimCutL cut (a :: (s ++ [b])) = trimCutL cut s := by
  have hstep : List.dropWhile (fun c => cut.contains c) (a :: (s ++ [b])) =
      List.dropWhile (fun c => cut.contains c) (s ++ [b]) := by
    rw [List.dropWhile_cons]
    simp only [ha, if_true]
  unfold trimCutL
  rw [hstep, List.dropWhile_append]
  by_cases hd : (List.dropWhile (fun c => cut.contains c) s).isEmpty = true
  · rw [if_pos hd]
    have hs : List.dropWhile (fun c => cut.contains c) s = [] := by
      cases hempty : List.dropWhile (fun c => cut.contains c) s with
      | nil => rfl
      | cons x xs =>
        rw [hempty] at hd
        simp [List.isEmpty] at hd
    rw [hs]
    have hb2 : List.dropWhile (fun c => cut.contains c) [b] = [] := by
      rw [show ([b] : List Char) = b :: [] from rfl, List.dropWhile_cons]
      simp only [hb, if_true, List.dropWhile_nil]
    rw [hb2]
  · rw [if_neg hd, List.reverse_append]
    have hb3 : List.dropWhile (fun c => cut.contains c)
        (([b] : List Char).reverse ++
          (List.dropWhile (fun c => cut.contains c) s).reverse) =
        List.dropWhile (fun c => cut.contains c)
          (List.dropWhile (fun c => cut.contains c) s).reverse := by
      rw [show (([b] : List Char).reverse ++
          (List.dropWhile (fun c => cut.contains c) s).reverse) =
          b :: (List.dropWhile (fun c => cut.contains c) s).reverse from rfl]
      rw [List.dropWhile_cons]
      simp only [hb, if_true]
    rw [hb3]

/-- The float value of the literal `1.5` as `goParseFloat` computes it. -/
theorem goParseFloat_one_point_five : goParseFloat "1.5" = some ((3 : Rat) / 2) := by
  show some ((1 : Rat) * (((1 : Nat) : Rat) + ((5 : Nat) : Rat) / (10 : Rat) ^ (1 : Nat))) =
    some ((3 : Rat) / 2)
  norm_num

/-- C10: surrounding quotes are stripped before numeric parsing —
wrapping any value text in single or double quotes never changes the
parsed value, and quoted numeric literals parse to numbers, never to
strings. -/
theorem c10_quoted_values_parse_numeric :
    (∀ s : String,
      parseValue ("'" ++ s ++ "'") = parseValue s ∧
      parseValue ("\"" ++ s ++ "\"") = parseValue s) ∧
    parseValue "'123'" = .int 123 ∧
    parseValue "\"1.5\"" = .float ((3 : Rat) / 2) ∧
    parseValue "'1.5'" = .float ((3 : Rat) / 2) := by
  have hv1 : parseValue "'1.5'" =
      (match goParseFloat "1.5" with
        | some q => GoValue.float q
        | none => GoValue.str "1.5") := rfl
  have hv2 : parseValue "\"1.5\"" =
      (match goParseFloat "1.5" with
        | some q => GoValue.float q
        | none => GoValue.str "1.5") := rfl
  refine ⟨?_, by decide, ?_, ?_⟩
  · intro s
    constructor
    · have hdata : ("'" ++ s ++ "'").data = '\'' :: (s.data ++ ['\'']) := by
        simp [String.data_append]
      have h2 : goTrimCut ['\'', '"'] ("'" ++ s ++ "'") = goTrimCut ['\'', '"'] s := by
        show (⟨trimCutL ['\'', '"'] ("'" ++ s ++ "'").data⟩ : String) =
          ⟨trimCutL ['\'', '"'] s.data⟩
        rw [hdata, trimCut_wrap ['\'', '"'] '\'' '\'' (by decide) (by decide)]
      unfold parseValue
      rw [h2]
    · have hdata : ("\"" ++ s ++ "\"").data = '"' :: (s.data ++ ['"']) := by
        simp [String.data_append]
      have h2 : goTrimCut ['\'', '"'] ("\"" ++ s ++ "\"") = goTrimCut ['\'', '"'] s := by
        show (⟨trimCutL ['\'', '"'] ("\"" ++ s ++ "\"").data⟩ : String) =
          ⟨trimCutL ['\'', '"'] s.data⟩
        rw [hdata, trimCut_wrap ['\'', '"'] '"' '"' (by decide) (by decide)]
      unfold parseValue
      rw [h2]
  · rw [hv2, goParseFloat_one_point_five]
  · rw [hv1, goParseFloat_one_point_five]

/-! ## C4: duplicate derived column names in GenerateGrammar -/

/-- A plain integer parameter named `age`. -/
def c4ParamAge (ops : List String) : Parameter :=
  { Name := "age", «Type» := "integer", Location := "query", Required := false,
    Format := "", Enum := [], Operators := ops }

/-- A range-suffixed integer parameter named `age_min`; its derived
column name is also `age`. -/
def c4ParamAgeMin (ops : List String) : Parameter :=
  { Name := "age_min", «Type» := "integer", Location := "query", Required := false,
    Format := "", Enum := [], Operators := ops }

/-- A capability carrying both an `age` and an `age_min` parameter. -/
def c4Cap (ops1 ops2 : List String) : APICapability :=
  { Path := "/people", Method := "GET",
    Parameters := [c4ParamAge ops1, c4ParamAgeMin ops2],
    ResponseColumns := ["age", "name"], TableName := "people",
    BaseURL := "http://api", MaxResults := 50, HasPaging := false,
    PageParam := "", LimitParam := "" }

/-- C4, counterexample: with `age` carrying operators `[>]` and
`age_min` carrying `[>=]`, the filter-map entry for `age` ends up as
`[>=]` only — the `>` operator of the first parameter is lost, so the
entry is not the union of the two operator sets. -/
theorem c4_operators_not_unioned :
    mapLookup (GenerateGrammar (c4Cap [">"] [">="])).WhereClause.AllowedColumns
      "age" = some [">="] ∧
    ">" ∈ (c4ParamAge [">"]).Operators ∧
    ">" ∉ ([">="] : List String) := by
  refine ⟨by decide, by decide, by decide⟩

/-- C4, amended: when two differently-suffixed parameters derive the
same column name, each Go map assignment overwrites the previous entry,
so the filter map holds exactly the operator set of the last parameter
seen, not the union. -/
theorem c4_last_parameter_wins (ops1 ops2 : List String)
    (h1 : ops1 ≠ []) (h2 : ops2 ≠ []) :
    mapLookup (GenerateGrammar (c4Cap ops1 ops2)).WhereClause.AllowedColumns "age" =
      some ops2 := by
  obtain ⟨o1, os1, rfl⟩ := List.exists_cons_of_ne_nil h1
  obtain ⟨o2, os2, rfl⟩ := List.exists_cons_of_ne_nil h2
  have e1 : isPaginationParam "age" = false := by decide
  have e2 : isPaginationParam "age_min" = false := by decide
  have e3 : extractColumnName "age" = "age" := by decide
  have e4 : extractColumnName "age_min" = "age" := by decide
  simp [GenerateGrammar, grammarParamsLoop, c4Cap, c4ParamAge, c4ParamAgeMin,
    e1, e2, e3, e4, mapInsert, mapLookup, List.find?]

/-- C4, witness for the amended theorem at concrete operator sets. -/
theorem c4_last_parameter_wins_witness :
    mapLookup (GenerateGrammar (c4Cap [">"] [">="])).WhereClause.AllowedColumns
      "age" = some [">="] :=
  c4_last_parameter_wins [">"] [">="] (by decide) (by decide)

/-! ## C5: BETWEEN keeps only its lower bound -/

/-- The grammar used for the BETWEEN claim: `price` is projectable and
filterable with BETWEEN. -/
def priceGrammar : SQLGrammar :=
  { TableName := "pets", AllowedColumns := ["id", "price"],
    WhereClause := { AllowedColumns := [("id", ["="]), ("price", ["BETWEEN", ">="])],
                     Suggestions := [] },
    OrderBy := { AllowedColumns := ["id"], DefaultOrder := "ASC" },
    Limit := { MaxLimit := 1000, DefaultLimit := 100, HasPaging := false } }

/-- C5: for every grammar that makes `price` projectable and allows
BETWEEN on it, `parseCondition` on `price BETWEEN 10 AND 20` yields
exactly one condition — operator `>=`, value 10 (the lower bound) — and
the upper bound 20 appears nowhere in the result.  (The Go code parses
the upper bound too and would propagate a parse error, but `parseValue`
has no failing branch, so that check is vacuous.) -/
theorem c5_between_keeps_lower_bound (g : SQLGrammar)
    (hcol : isColumnAllowed g "price" = true)
    (ops : List String)
    (hops : mapLookup g.WhereClause.AllowedColumns "price" = some ops)
    (hbet : contains ops "BETWEEN" = true) :
    parseCondition g "price BETWEEN 10 AND 20" =
      .ok { Column := "price", Operator := ">=", Value := .int 10 } := by
  have key : parseCondition g "price BETWEEN 10 AND 20" =
      (if ¬ isColumnAllowed g "price" = true then
        Except.error ("column " ++ "price" ++ " not available for filtering")
      else
        match mapLookup g.WhereClause.AllowedColumns "price" with
        | none => Except.error ("BETWEEN operator not supported for column " ++ "price")
        | some allowedOps =>
          if ¬ contains allowedOps "BETWEEN" = true then
            Except.error ("BETWEEN operator not supported for column " ++ "price")
          else
            Except.ok { Column := "price", Operator := ">=",
                        Value := parseValue "10" }) := rfl
  rw [key, if_neg (by simp [hcol]), hops]
  show (if ¬ contains ops "BETWEEN" = true then
      Except.error ("BETWEEN operator not supported for column " ++ "price")
    else
      Except.ok (Condition.mk "price" ">=" (parseValue "10"))) =
    Except.ok (Condition.mk "price" ">=" (GoValue.int 10))
  rw [if_neg (by simp [hbet])]
  rfl

/-- C5, witness at the concrete `priceGrammar`. -/
theorem c5_between_keeps_lower_bound_witness :
    parseCondition priceGrammar "price BETWEEN 10 AND 20" =
      .ok { Column := "price", Operator := ">=", Value := .int 10 } :=
  c5_between_keeps_lower_bound priceGrammar (by decide) ["BETWEEN", ">="]
    (by decide) (by decide)

/-! ## C8: mutation URLs are built from the id = value condition -/

theorem mutationURLLoop_find_none (cap : APICapability) (baseURL : String)
    (conds : List Condition)
    (h : conds.find? (fun c => decide (c.Column = "id" ∧ c.Operator = "=")) = none) :
    mutationURLLoop cap baseURL conds =
      .error "UPDATE/DELETE requires WHERE id = value clause" := by
  induction conds with
  | nil => rfl
  | cons c0 rest ih =>
    by_cases hc : c0.Column = "id" ∧ c0.Operator = "="
    · rw [List.find?_cons_of_pos _ (by simp [hc])] at h
      exact Option.noConfusion h
    · rw [List.find?_cons_of_neg _ (by simp [hc])] at h
      rw [mutationURLLoop, if_neg hc]
      exact ih h

theorem mutationURLLoop_find_some (cap : APICapability) (baseURL : String)
    (conds : List Condition) (c : Condition)
    (h : conds.find? (fun c => decide (c.Column = "id" ∧ c.Operator = "=")) = some c) :
    mutationURLLoop cap baseURL conds =
      .ok (if goContains cap.Path "{id}" then
          goReplace1 baseURL "{id}" (goFormatValue c.Value)
        else baseURL ++ "/" ++ goFormatValue c.Value) := by
  induction conds with
  | nil => simp [List.find?] at h
  | cons c0 rest ih =>
    by_cases hc : c0.Column = "id" ∧ c0.Operator = "="
    · rw [List.find?_cons_of_pos _ (by simp [hc])] at h
      cases h
      rw [mutationURLLoop, if_pos hc]
      by_cases hp : goContains cap.Path "{id}" = true
      · rw [if_pos hp, if_pos hp]
      · rw [if_neg hp, if_neg hp]
    · rw [List.find?_cons_of_neg _ (by simp [hc])] at h
      rw [mutationURLLoop, if_neg hc]
      exact ih h

/-- C8: for an UPDATE or DELETE ParsedQuery, the executor locates the
first condition with column `id` and operator `=`.  When none exists,
URL construction fails and no request plan is produced; when one
exists, the issued request's URL substitutes its value for a `{id}`
placeholder in the Capability path when present, else appends it as a
trailing path segment. -/
theorem c8_mutation_url_from_id_condition (cap : APICapability) (q : ParsedQuery)
    (hkind : q.QueryType = "UPDATE" ∨ q.QueryType = "DELETE") :
    (q.Conditions.find? (fun c => decide (c.Column = "id" ∧ c.Operator = "=")) = none →
      ∃ e, executeMutation cap q = .error e) ∧
    (∀ c, q.Conditions.find?
        (fun c => decide (c.Column = "id" ∧ c.Operator = "=")) = some c →
      ∃ plan, executeMutation cap q = .ok plan ∧
        plan.url = (if goContains cap.Path "{id}" then
            goReplace1 (cap.BaseURL ++ cap.Path) "{id}" (goFormatValue c.Value)
          else cap.BaseURL ++ cap.Path ++ "/" ++ goFormatValue c.Value)) := by
  constructor
  · intro hnone
    rcases hkind with hU | hD
    · rw [executeMutation, hU, if_pos rfl, buildMutationURL,
        mutationURLLoop_find_none cap _ _ hnone]
      exact ⟨_, rfl⟩
    · rw [executeMutation, hD]
      rw [if_neg (by decide), if_pos rfl, buildMutationURL,
        mutationURLLoop_find_none cap _ _ hnone]
      exact ⟨_, rfl⟩
  · intro c hsome
    rcases hkind with hU | hD
    · rw [executeMutation, hU, if_pos rfl, buildMutationURL,
        mutationURLLoop_find_some cap _ _ c hsome]
      exact ⟨_, rfl, rfl⟩
    · rw [executeMutation, hD]
      rw [if_neg (by decide), if_pos rfl, buildMutationURL,
        mutationURLLoop_find_some cap _ _ c hsome]
      exact ⟨_, rfl, rfl⟩

/-- The UPDATE capability of the spec scenario: path `/pets/{id}`. -/
def mutCap : APICapability :=
  { Path := "/pets/{id}", Method := "PUT", Parameters := [],
    ResponseColumns := [], TableName := "pets_put",
    BaseURL := "https://api.example.com", MaxResults := 0, HasPaging := false,
    PageParam := "", LimitParam := "" }

/-- An UPDATE ParsedQuery with the condition `id = 123`. -/
def mutQuery : ParsedQuery :=
  { QueryType := "UPDATE", TableName := "pets", Columns := [], Values := [],
    Updates := [("name", .str "rex")],
    Conditions := [{ Column := "id", Operator := "=", Value := .int 123 }],
    OrderBy := [], Limit := 0, Offset := 0 }

/-- C8, witness: the spec scenario — condition `id = 123` on an UPDATE
Capability with path `/pets/{id}` yields the path-substituted URL
`https://api.example.com/pets/123`, not a query parameter. -/
theorem c8_mutation_url_from_id_condition_witness :
    ∃ plan, executeMutation mutCap mutQuery = .ok plan ∧
      plan.url = (if goContains mutCap.Path "{id}" then
          goReplace1 (mutCap.BaseURL ++ mutCap.Path) "{id}"
            (goFormatValue (GoValue.int 123))
        else mutCap.BaseURL ++ mutCap.Path ++ "/" ++ goFormatValue (GoValue.int 123)) :=
  (c8_mutation_url_from_id_condition mutCap mutQuery (Or.inl (by decide))).2
    { Column := "id", Operator := "=", Value := .int 123 } (by decide)

/-! ## C3: LIMIT bound checking -/

/-- C3: for any SELECT carrying an explicit `LIMIT` whose digits parse
to `n`: when `n` exceeds the grammar maximum, `ParseSQL` rejects the
statement; when `n` is at or below the maximum (boundary included) and
the stages before `parseLimit` succeed, `ParseSQL` succeeds with
`Limit = n` (and the parsed `OFFSET`, when present). -/
theorem c3_limit_bound (g : SQLGrammar) (sql : String) (limStr offStr : String)
    (n : Int)
    (hsel : goStartsWith (goToUpper (normalizeSQL sql)) "SELECT" = true)
    (hlim : limitFind (normalizeSQL sql) = some (limStr, offStr))
    (hn : goAtoi limStr = .ok n) :
    (g.Limit.MaxLimit < n → exceptOk (ParseSQL g sql) = false) ∧
    (∀ q4, n ≤ g.Limit.MaxLimit →
      selectPreLimit g (normalizeSQL sql) { emptyQuery with QueryType := "SELECT" } =
        .ok q4 →
      (offStr = "" → ParseSQL g sql = .ok { q4 with Limit := n }) ∧
      (∀ m, offStr ≠ "" → goAtoi offStr = .ok m →
        ParseSQL g sql = .ok { q4 with Limit := n, Offset := m })) := by
  have hParse : ParseSQL g sql =
      parseSelectQuery g (normalizeSQL sql) { emptyQuery with QueryType := "SELECT" } := by
    rw [ParseSQL]
    simp only
    rw [if_pos hsel]
  constructor
  · intro hmax
    rw [hParse, parseSelectQuery]
    cases hpre : selectPreLimit g (normalizeSQL sql)
        { emptyQuery with QueryType := "SELECT" } with
    | error e => rfl
    | ok q4 =>
      simp only [parseLimit, hlim, hn, if_pos hmax]
      rfl
  · intro q4 hle hpre
    have hnot : ¬ g.Limit.MaxLimit < n := not_lt.mpr hle
    constructor
    · intro hoff
      rw [hParse, parseSelectQuery, hpre]
      simp only [parseLimit, hlim, hn, if_neg hnot, hoff]
      try rfl
    · intro m hoff hm
      rw [hParse, parseSelectQuery, hpre]
      simp only [parseLimit, hlim, hn, if_neg hnot, if_pos hoff, hm]
      try rfl

/-- The grammar used for the LIMIT boundary claim: maximum limit 5. -/
def limitGrammar : SQLGrammar :=
  { TableName := "pets", AllowedColumns := ["id", "name"],
    WhereClause := { AllowedColumns := [("id", ["="])], Suggestions := [] },
    OrderBy := { AllowedColumns := ["id"], DefaultOrder := "ASC" },
    Limit := { MaxLimit := 5, DefaultLimit := 100, HasPaging := false } }

/-- The state of the SELECT pipeline just before `parseLimit` for
`SELECT id FROM pets LIMIT n` against `limitGrammar`. -/
def limitPreQuery : ParsedQuery :=
  { QueryType := "SELECT", TableName := "pets", Columns := ["id"], Values := [],
    Updates := [], Conditions := [], OrderBy := [], Limit := 0, Offset := 0 }

/-- C3, witness: `LIMIT 5` at exactly the maximum succeeds with
`Limit = 5`, and `LIMIT 6` just above it is rejected. -/
theorem c3_limit_bound_witness :
    ParseSQL limitGrammar "SELECT id FROM pets LIMIT 5" =
      .ok { limitPreQuery with Limit := 5 } ∧
    exceptOk (ParseSQL limitGrammar "SELECT id FROM pets LIMIT 6") = false := by
  constructor
  · exact ((c3_limit_bound limitGrammar "SELECT id FROM pets LIMIT 5" "5" "" 5
      (by decide) (by decide) (by decide)).2 limitPreQuery (by decide) (by decide)).1 rfl
  · exact (c3_limit_bound limitGrammar "SELECT id FROM pets LIMIT 6" "6" "" 6
      (by decide) (by decide) (by decide)).1 (by decide)

/-! ## Lemmas for `SELECT * FROM t` over a symbolic word-character table name -/

theorem word_not_respace (a : Char) (h : reWord a = true) : reSpaceC a = false := by
  cases hsp : reSpaceC a
  · rfl
  · exfalso
    have hmem : (((a = ' ' ∨ a = '\t') ∨ a = '\n') ∨ a = '\x0c') ∨ a = '\r' := by
      simpa [reSpaceC] using hsp
    rcases hmem with ⟨⟨⟨rfl | rfl⟩ | rfl⟩ | rfl⟩ | rfl <;> exact absurd h (by decide)

theorem word_not_uspace (a : Char) (h : reWord a = true) : goIsSpace a = false := by
  cases hsp : goIsSpace a
  · rfl
  · exfalso
    have hmem : ((((a = ' ' ∨ a = '\t') ∨ a = '\n') ∨ a = '\x0b') ∨ a = '\x0c') ∨ a = '\r' := by
      simpa [goIsSpace] using hsp
    rcases hmem with ⟨⟨⟨⟨rfl | rfl⟩ | rfl⟩ | rfl⟩ | rfl⟩ | rfl <;> exact absurd h (by decide)

theorem word_ne_semi (a : Char) (h : reWord a = true) : a ≠ ';' := by
  intro hcontra
  subst hcontra
  exact absurd h (by decide)

theorem reFindFrom_of_match (r : RE) (s : List Char) (caps : Caps)
    (h : reMatch r s (fun _ => some []) = some caps) : reFindFrom r s = some caps := by
  cases s with
  | nil => rw [reFindFrom]; exact h
  | cons c rest => rw [reFindFrom, h]

theorem findFrom_step (r : RE) (c : Char) (rest : List Char) (v : Option Caps)
    (h : reMatch r (c :: rest) (fun _ => some []) = none)
    (h2 : reFindFrom r rest = v) : reFindFrom r (c :: rest) = v := by
  rw [reFindFrom, h]
  exact h2

theorem repGreedy_head_no (f : Char → Bool) (c : Char) (rest : List Char)
    (k : List Char → Option Caps) (h : f c = false) :
    repGreedy f (c :: rest) k = k (c :: rest) := by
  rw [repGreedy]
  simp [h]

/-- A greedy word-class capture consuming an all-word prefix up to a
semicolon: the capture is the accumulated prefix plus the word run. -/
theorem capGreedy_word_semi (i : Nat) (t acc : List Char)
    (k : List Char → Option Caps)
    (hall : ∀ c ∈ t, reWord c = true) (v : Caps)
    (hk : (k [';']).map (fun caps => (i, acc ++ t) :: caps) = some v) :
    capGreedy i reWord acc (t ++ [';']) k = some v := by
  induction t generalizing acc with
  | nil =>
    show (if reWord ';' = true then _ else
      (k (';' :: [])).map (fun caps => (i, acc) :: caps)) = some v
    rw [if_neg (by decide)]
    simpa using hk
  | cons a t2 ih =>
    have ha : reWord a = true := hall a (by simp)
    show (if reWord a = true then
        (capGreedy i reWord (acc ++ [a]) (t2 ++ [';']) k).orElse
          (fun _ => (k ((a :: t2) ++ [';'])).map (fun caps => (i, acc) :: caps))
      else (k ((a :: t2) ++ [';'])).map (fun caps => (i, acc) :: caps)) = some v
    rw [if_pos ha]
    rw [ih (acc ++ [a]) (fun c hc => hall c (by simp [hc]))
      (by rw [List.append_assoc]; simpa using hk)]
    rfl

/-- A lazy capture whose continuation succeeds immediately. -/
theorem capLazy_now (i : Nat) (f : Char → Bool) (acc s : List Char)
    (k : List Char → Option Caps) (v : Caps)
    (hk : (k s).map (fun caps => (i, acc) :: caps) = some v) :
    capLazy i f acc s k = some v := by
  cases s with
  | nil =>
    show (k []).map (fun caps => (i, acc) :: caps) = some v
    exact hk
  | cons c rest =>
    show ((k (c :: rest)).map (fun caps => (i, acc) :: caps)).orElse _ = some v
    rw [hk]
    rfl

/-- If a case-insensitive literal with no semicolon-like character
matches at the head of `t ++ [';']` with `t` all word characters, the
rest is again of that shape. -/
theorem matchLit_word_semi (w : List Char) (hwne : ∀ c ∈ w, ciEqChar c ';' = false) :
    ∀ (t : List Char), (∀ c ∈ t, reWord c = true) →
    ∀ (u : List Char), matchLit w (t ++ [';']) = some u →
    ∃ t2, u = t2 ++ [';'] ∧ ∀ c ∈ t2, reWord c = true := by
  induction w with
  | nil =>
    intro t ht u h
    rw [matchLit] at h
    cases h
    exact ⟨t, rfl, ht⟩
  | cons p ps ih =>
    intro t ht u h
    cases t with
    | nil =>
      rw [show (([] : List Char) ++ [';']) = ';' :: [] from rfl, matchLit] at h
      rw [hwne p (by simp)] at h
      simp at h
    | cons a t2 =>
      rw [show ((a :: t2) ++ [';']) = a :: (t2 ++ [';']) from rfl, matchLit] at h
      by_cases hpa : ciEqChar p a = true
      · rw [hpa, if_pos rfl] at h
        exact ih (fun c hc => hwne c (by simp [hc])) t2
          (fun c hc => ht c (by simp [hc])) u h
      · rw [if_neg (by simpa using hpa)] at h
        exact Option.noConfusion h

/-- `\s+` followed by anything fails on input starting with a
non-whitespace character. -/
theorem seqWs_fail (R : RE) (c : Char) (rest : List Char)
    (k : List Char → Option Caps) (h : reSpaceC c = false) :
    reMatch (RE.seq wsP R) (c :: rest) k = none := by
  have hred : reMatch (RE.seq wsP R) (c :: rest) k =
      (if reSpaceC c = true then
        repGreedy reSpaceC rest (fun r2 => reMatch R r2 k)
      else none) := rfl
  rw [hred, h]
  simp

/-- Matching `lit w` followed by `\s+` fails everywhere inside
`t ++ [';']` when `t` is all word characters: whatever the literal
consumes, the next character is a word character or the semicolon,
never whitespace. -/
theorem reMatch_litWs_fail (w : List Char) (R : RE) (t : List Char)
    (hwne : ∀ c ∈ w, ciEqChar c ';' = false)
    (ht : ∀ c ∈ t, reWord c = true) :
    reMatch (RE.seq (RE.lit w) (RE.seq wsP R)) (t ++ [';'])
      (fun _ => some []) = none := by
  show (match matchLit w (t ++ [';']) with
    | some rest => reMatch (RE.seq wsP R) rest (fun _ => some ([] : Caps))
    | none => none) = none
  cases hm : matchLit w (t ++ [';']) with
  | none => rfl
  | some u =>
    obtain ⟨t2, rfl, ht2⟩ := matchLit_word_semi w hwne t ht u hm
    cases t2 with
    | nil => exact seqWs_fail R ';' [] _ (by decide)
    | cons b t3 =>
      exact seqWs_fail R b _ _ (word_not_respace b (ht2 b (by simp)))

/-- The leftmost search for `lit w` + `\s+` + anything fails over a
word run followed by a semicolon. -/
theorem reFindFrom_litWs_none (w : List Char) (R : RE) (hw : w ≠ [])
    (hwne : ∀ c ∈ w, ciEqChar c ';' = false) :
    ∀ t : List Char, (∀ c ∈ t, reWord c = true) →
      reFindFrom (RE.seq (RE.lit w) (RE.seq wsP R)) (t ++ [';']) = none := by
  intro t
  induction t with
  | nil =>
    intro _
    obtain ⟨p, ps, rfl⟩ := List.exists_cons_of_ne_nil hw
    have hfail : reMatch (RE.seq (RE.lit (p :: ps)) (RE.seq wsP R)) (';' :: [])
        (fun _ => some []) = none :=
      reMatch_litWs_fail (p :: ps) R [] hwne (by simp)
    rw [show (([] : List Char) ++ [';']) = ';' :: [] from rfl]
    apply findFrom_step _ _ _ _ hfail
    rw [reFindFrom]
    show (match matchLit (p :: ps) [] with
      | some rest => reMatch (RE.seq wsP R) rest (fun _ => some ([] : Caps))
      | none => none) = none
    rfl
  | cons a t2 ih =>
    intro hword
    have hfail := reMatch_litWs_fail w R (a :: t2) hwne hword
    rw [show ((a :: t2) ++ [';']) = a :: (t2 ++ [';']) from rfl] at hfail ⊢
    exact findFrom_step _ _ _ _ hfail (ih (fun c hc => hword c (by simp [hc])))

/-- The projection pattern on `SELECT * FROM t;`: the lazy group
captures exactly the star. -/
theorem selectMatch_star (X : List Char) :
    reMatch selectRe ("SELECT * FROM ".data ++ X) (fun _ => some []) =
      some [(1, ['*'])] := by
  apply capLazy_now
  rfl

theorem selectFind_star (X : List Char) :
    reFindFrom selectRe ("SELECT * FROM ".data ++ X) = some [(1, ['*'])] :=
  reFindFrom_of_match _ _ _ (selectMatch_star X)

/-- The FROM pattern captures the whole word-character table name. -/
theorem fromMatch_word (t : List Char) (ht : t ≠ []) (hw : ∀ c ∈ t, reWord c = true) :
    reMatch fromRe ("FROM ".data ++ (t ++ [';'])) (fun _ => some []) =
      some [(1, t)] := by
  obtain ⟨a, t2, rfl⟩ := List.exists_cons_of_ne_nil ht
  have ha : reWord a = true := hw a (by simp)
  have hsp : reSpaceC a = false := word_not_respace a ha
  show repGreedy reSpaceC (a :: (t2 ++ [';']))
    (fun rest => reMatch (RE.seq (wordG 1) (RE.lit [])) rest (fun _ => some [])) =
    some [(1, a :: t2)]
  rw [repGreedy_head_no _ _ _ _ hsp]
  show (if reWord a = true then
      capGreedy 1 reWord [a] (t2 ++ [';'])
        (fun rest => reMatch (RE.lit []) rest (fun _ => some []))
    else none) = some [(1, a :: t2)]
  rw [if_pos ha]
  apply capGreedy_word_semi 1 t2 [a] _ (fun c hc => hw c (by simp [hc]))
  rfl

theorem fromFind_word (t : List Char) (ht : t ≠ []) (hw : ∀ c ∈ t, reWord c = true) :
    reFindFrom fromRe ("SELECT * FROM ".data ++ (t ++ [';'])) = some [(1, t)] := by
  refine findFrom_step _ _ _ _ rfl ?_
  refine findFrom_step _ _ _ _ rfl ?_
  refine findFrom_step _ _ _ _ rfl ?_
  refine findFrom_step _ _ _ _ rfl ?_
  refine findFrom_step _ _ _ _ rfl ?_
  refine findFrom_step _ _ _ _ rfl ?_
  refine findFrom_step _ _ _ _ rfl ?_
  refine findFrom_step _ _ _ _ rfl ?_
  refine findFrom_step _ _ _ _ rfl ?_
  exact reFindFrom_of_match _ _ _ (fromMatch_word t ht hw)

theorem whereFind_none (t : List Char) (ht : ∀ c ∈ t, reWord c = true) :
    reFindFrom whereRe ("SELECT * FROM ".data ++ (t ++ [';'])) = none := by
  refine findFrom_step _ _ _ _ rfl ?_
  refine findFrom_step _ _ _ _ rfl ?_
  refine findFrom_step _ _ _ _ rfl ?_
  refine findFrom_step _ _ _ _ rfl ?_
  refine findFrom_step _ _ _ _ rfl ?_
  refine findFrom_step _ _ _ _ rfl ?_
  refine findFrom_step _ _ _ _ rfl ?_
  refine findFrom_step _ _ _ _ rfl ?_
  refine findFrom_step _ _ _ _ rfl ?_
  refine findFrom_step _ _ _ _ rfl ?_
  refine findFrom_step _ _ _ _ rfl ?_
  refine findFrom_step _ _ _ _ rfl ?_
  refine findFrom_step _ _ _ _ rfl ?_
  refine findFrom_step _ _ _ _ rfl ?_
  exact reFindFrom_litWs_none "WHERE".data _ (by decide) (by decide) t ht

theorem orderFind_none (t : List Char) (ht : ∀ c ∈ t, reWord c = true) :
    reFindFrom orderRe ("SELECT * FROM ".data ++ (t ++ [';'])) = none := by
  refine findFrom_step _ _ _ _ rfl ?_
  refine findFrom_step _ _ _ _ rfl ?_
  refine findFrom_step _ _ _ _ rfl ?_
  refine findFrom_step _ _ _ _ rfl ?_
  refine findFrom_step _ _ _ _ rfl ?_
  refine findFrom_step _ _ _ _ rfl ?_
  refine findFrom_step _ _ _ _ rfl ?_
  refine findFrom_step _ _ _ _ rfl ?_
  refine findFrom_step _ _ _ _ rfl ?_
  refine findFrom_step _ _ _ _ rfl ?_
  refine findFrom_step _ _ _ _ rfl ?_
  refine findFrom_step _ _ _ _ rfl ?_
  refine findFrom_step _ _ _ _ rfl ?_
  refine findFrom_step _ _ _ _ rfl ?_
  exact reFindFrom_litWs_none "ORDER".data _ (by decide) (by decide) t ht

theorem limitFind_none_star (t : List Char) (ht : ∀ c ∈ t, reWord c = true) :
    reFindFrom limitRe ("SELECT * FROM ".data ++ (t ++ [';'])) = none := by
  refine findFrom_step _ _ _ _ rfl ?_
  refine findFrom_step _ _ _ _ rfl ?_
  refine findFrom_step _ _ _ _ rfl ?_
  refine findFrom_step _ _ _ _ rfl ?_
  refine findFrom_step _ _ _ _ rfl ?_
  refine findFrom_step _ _ _ _ rfl ?_
  refine findFrom_step _ _ _ _ rfl ?_
  refine findFrom_step _ _ _ _ rfl ?_
  refine findFrom_step _ _ _ _ rfl ?_
  refine findFrom_step _ _ _ _ rfl ?_
  refine findFrom_step _ _ _ _ rfl ?_
  refine findFrom_step _ _ _ _ rfl ?_
  refine findFrom_step _ _ _ _ rfl ?_
  refine findFrom_step _ _ _ _ rfl ?_
  exact reFindFrom_litWs_none "LIMIT".data _ (by decide) (by decide) t ht

theorem trimSpace_selectStar (t : List Char) (ht : t ≠ [])
    (hw : ∀ c ∈ t, reWord c = true) :
    trimSpaceL ("SELECT * FROM ".data ++ t) = "SELECT * FROM ".data ++ t := by
  obtain ⟨a, t2, hrev⟩ : ∃ a t2, t.reverse = a :: t2 := by
    cases hr : t.reverse with
    | nil => exact absurd (List.reverse_eq_nil_iff.mp hr) ht
    | cons a t2 => exact ⟨a, t2, rfl⟩
  have ha : reWord a = true := by
    refine hw a ?_
    have hmem : a ∈ t.reverse := by rw [hrev]; simp
    simpa using hmem
  have hs : goIsSpace a = false := word_not_uspace a ha
  show ((dropSpacesL ("SELECT * FROM ".data ++ t)).reverse.dropWhile
    (fun c => goIsSpace c)).reverse = "SELECT * FROM ".data ++ t
  rw [show dropSpacesL ("SELECT * FROM ".data ++ t) =
    "SELECT * FROM ".data ++ t from rfl]
  rw [List.reverse_append, hrev]
  rw [show ((a :: t2) ++ "SELECT * FROM ".data.reverse) =
    a :: (t2 ++ "SELECT * FROM ".data.reverse) from rfl]
  rw [List.dropWhile_cons]
  rw [if_neg (by simp [hs])]
  rw [show a :: (t2 ++ "SELECT * FROM ".data.reverse) =
    (a :: t2) ++ "SELECT * FROM ".data.reverse from rfl]
  rw [List.reverse_append, ← hrev, List.reverse_reverse, List.reverse_reverse]

theorem endsWith_semi_false (tS : String) (ht : tS.data ≠ [])
    (hw : ∀ c ∈ tS.data, reWord c = true) :
    goEndsWith ("SELECT * FROM " ++ tS) ";" = false := by
  obtain ⟨a, t2, hrev⟩ : ∃ a t2, tS.data.reverse = a :: t2 := by
    cases hr : tS.data.reverse with
    | nil => exact absurd (List.reverse_eq_nil_iff.mp hr) ht
    | cons a t2 => exact ⟨a, t2, rfl⟩
  have ha : reWord a = true := by
    refine hw a ?_
    have hmem : a ∈ tS.data.reverse := by rw [hrev]; simp
    simpa using hmem
  show isLitHead ";".data.reverse ("SELECT * FROM " ++ tS).data.reverse = false
  rw [String.data_append, List.reverse_append, hrev]
  show isLitHead [';'] (a :: (t2 ++ "SELECT * FROM ".data.reverse)) = false
  show (decide (';' = a) && isLitHead [] (t2 ++ "SELECT * FROM ".data.reverse)) = false
  simp [Ne.symm (word_ne_semi a ha)]

theorem normalize_selectStar (tS : String) (ht : tS.data ≠ [])
    (hw : ∀ c ∈ tS.data, reWord c = true) :
    normalizeSQL ("SELECT * FROM " ++ tS) = "SELECT * FROM " ++ tS ++ ";" := by
  have htrim : goTrimSpace ("SELECT * FROM " ++ tS) = "SELECT * FROM " ++ tS := by
    show (⟨trimSpaceL ("SELECT * FROM " ++ tS).data⟩ : String) = "SELECT * FROM " ++ tS
    rw [String.data_append, trimSpace_selectStar tS.data ht hw, ← String.data_append]
  rw [normalizeSQL]
  simp only [htrim, endsWith_semi_false tS ht hw, Bool.false_eq_true, if_false]

theorem trimSpaceL_word (t : List Char) (hw : ∀ c ∈ t, reWord c = true) :
    trimSpaceL t = t := by
  show ((dropSpacesL t).reverse.dropWhile (fun c => goIsSpace c)).reverse = t
  cases t with
  | nil => rfl
  | cons a t2 =>
    have h1 : dropSpacesL (a :: t2) = a :: t2 := by
      show List.dropWhile (fun c => goIsSpace c) (a :: t2) = a :: t2
      rw [List.dropWhile_cons, if_neg (by simp [word_not_uspace a (hw a (by simp))])]
    rw [h1]
    obtain ⟨b, r2, hrev⟩ : ∃ b r2, (a :: t2).reverse = b :: r2 := by
      cases hr : (a :: t2).reverse with
      | nil => exact absurd (List.reverse_eq_nil_iff.mp hr) (by simp)
      | cons b r2 => exact ⟨b, r2, rfl⟩
    have hb : reWord b = true := by
      refine hw b ?_
      have hmem : b ∈ (a :: t2).reverse := by rw [hrev]; simp
      rw [List.mem_reverse] at hmem
      exact hmem
    rw [hrev, List.dropWhile_cons, if_neg (by simp [word_not_uspace b hb]), ← hrev,
      List.reverse_reverse]

/-- The full `ParseSQL` run of `SELECT * FROM t` for a grammar whose
table name `t` is a non-empty word-character string: it succeeds and the
projected columns are exactly the grammar's `AllowedColumns`, in order,
with the limit at the grammar default. -/
theorem ParseSQL_selectStar (g : SQLGrammar) (ht : g.TableName.data ≠ [])
    (hw : ∀ c ∈ g.TableName.data, reWord c = true) :
    ParseSQL g ("SELECT * FROM " ++ g.TableName) =
      .ok { QueryType := "SELECT", TableName := g.TableName,
            Columns := g.AllowedColumns, Values := [], Updates := [],
            Conditions := [], OrderBy := [], Limit := g.Limit.DefaultLimit,
            Offset := 0 } := by
  have hnorm := normalize_selectStar g.TableName ht hw
  have hdata : ("SELECT * FROM " ++ g.TableName ++ ";").data =
      "SELECT * FROM ".data ++ (g.TableName.data ++ [';']) := by
    simp [String.data_append]
  have hfind1 : reFindFrom selectRe ("SELECT * FROM " ++ g.TableName ++ ";").data =
      some [(1, ['*'])] := by
    rw [hdata]; exact selectFind_star _
  have hfind2 : reFindFrom fromRe ("SELECT * FROM " ++ g.TableName ++ ";").data =
      some [(1, g.TableName.data)] := by
    rw [hdata]; exact fromFind_word _ ht hw
  have hfindw : reFindFrom whereRe ("SELECT * FROM " ++ g.TableName ++ ";").data =
      none := by
    rw [hdata]; exact whereFind_none _ hw
  have hfindo : reFindFrom orderRe ("SELECT * FROM " ++ g.TableName ++ ";").data =
      none := by
    rw [hdata]; exact orderFind_none _ hw
  have hfindl : reFindFrom limitRe ("SELECT * FROM " ++ g.TableName ++ ";").data =
      none := by
    rw [hdata]; exact limitFind_none_star _ hw
  have hstar : goTrimSpace (capGet [(1, ['*'])] 1) = "*" := rfl
  have htrimT : goTrimSpace (capGet [(1, g.TableName.data)] 1) = g.TableName := by
    show (⟨trimSpaceL g.TableName.data⟩ : String) = g.TableName
    rw [trimSpaceL_word _ hw]
  have hsel : parseSelect g ("SELECT * FROM " ++ g.TableName ++ ";")
      { emptyQuery with QueryType := "SELECT" } =
      .ok { QueryType := "SELECT", TableName := "", Columns := g.AllowedColumns,
            Values := [], Updates := [], Conditions := [], OrderBy := [],
            Limit := 0, Offset := 0 } := by
    simp only [parseSelect, hfind1, hstar, if_pos rfl, emptyQuery]
    simp
  have hfrom : parseFrom ("SELECT * FROM " ++ g.TableName ++ ";")
      { QueryType := "SELECT", TableName := "", Columns := g.AllowedColumns,
        Values := [], Updates := [], Conditions := [], OrderBy := [],
        Limit := 0, Offset := 0 } =
      .ok { QueryType := "SELECT", TableName := g.TableName,
            Columns := g.AllowedColumns, Values := [], Updates := [],
            Conditions := [], OrderBy := [], Limit := 0, Offset := 0 } := by
    simp only [parseFrom, hfind2, htrimT]
  have hwhereStep : parseWhere g ("SELECT * FROM " ++ g.TableName ++ ";")
      { QueryType := "SELECT", TableName := g.TableName,
        Columns := g.AllowedColumns, Values := [], Updates := [],
        Conditions := [], OrderBy := [], Limit := 0, Offset := 0 } =
      .ok { QueryType := "SELECT", TableName := g.TableName,
            Columns := g.AllowedColumns, Values := [], Updates := [],
            Conditions := [], OrderBy := [], Limit := 0, Offset := 0 } := by
    simp only [parseWhere, hfindw]
  have horderStep : parseOrderBy g ("SELECT * FROM " ++ g.TableName ++ ";")
      { QueryType := "SELECT", TableName := g.TableName,
        Columns := g.AllowedColumns, Values := [], Updates := [],
        Conditions := [], OrderBy := [], Limit := 0, Offset := 0 } =
      .ok { QueryType := "SELECT", TableName := g.TableName,
            Columns := g.AllowedColumns, Values := [], Updates := [],
            Conditions := [], OrderBy := [], Limit := 0, Offset := 0 } := by
    simp only [parseOrderBy, hfindo]
  have hlimitStep : parseLimit g ("SELECT * FROM " ++ g.TableName ++ ";")
      { QueryType := "SELECT", TableName := g.TableName,
        Columns := g.AllowedColumns, Values := [], Updates := [],
        Conditions := [], OrderBy := [], Limit := 0, Offset := 0 } =
      .ok { QueryType := "SELECT", TableName := g.TableName,
            Columns := g.AllowedColumns, Values := [], Updates := [],
            Conditions := [], OrderBy := [], Limit := g.Limit.DefaultLimit,
            Offset := 0 } := by
    simp only [parseLimit, limitFind, hfindl]
  have hup : goStartsWith (goToUpper ("SELECT * FROM " ++ g.TableName ++ ";"))
      "SELECT" = true := by
    show isLitHead "SELECT".data
      (("SELECT * FROM " ++ g.TableName ++ ";").data.map charUpper) = true
    rw [hdata]
    rfl
  rw [ParseSQL]
  simp only [hnorm, hup, if_true]
  rw [parseSelectQuery, selectPreLimit, hsel]
  simp only
  rw [hfrom]
  simp only
  rw [if_neg (by simp)]
  rw [hwhereStep]
  simp only
  rw [horderStep]
  simp only
  exact hlimitStep

theorem grammarParamsLoop_frame (b : Bool) (params : List Parameter) :
    ∀ g : SQLGrammar, (grammarParamsLoop b params g).TableName = g.TableName ∧
      (grammarParamsLoop b params g).Limit = g.Limit := by
  induction params with
  | nil =>
    intro g
    rw [grammarParamsLoop]
    exact ⟨rfl, rfl⟩
  | cons p rest ih =>
    intro g
    have key : ∀ g2 : SQLGrammar, g2.TableName = g.TableName → g2.Limit = g.Limit →
        (grammarParamsLoop b rest g2).TableName = g.TableName ∧
        (grammarParamsLoop b rest g2).Limit = g.Limit :=
      fun g2 hT hL => ⟨(ih g2).1.trans hT, (ih g2).2.trans hL⟩
    rw [grammarParamsLoop]
    by_cases h1 : isPaginationParam p.Name = true
    · rw [if_pos h1]
      exact ih g
    · rw [if_neg h1]
      simp only []
      by_cases h2 : extractColumnName p.Name = ""
      · rw [if_pos h2]
        exact ih g
      · rw [if_neg h2]
        refine key _ ?_ ?_ <;> (repeat' split) <;> rfl

theorem GenerateGrammar_fields (cap : APICapability) (h : cap.MaxResults ≠ 0) :
    (GenerateGrammar cap).TableName = cap.TableName ∧
    (GenerateGrammar cap).Limit.DefaultLimit = 100 ∧
    (GenerateGrammar cap).Limit.MaxLimit = cap.MaxResults := by
  rw [GenerateGrammar]
  simp only []
  by_cases hresp : cap.ResponseColumns.length > 0
  · simp only [hresp, if_true]
    rw [(grammarParamsLoop_frame _ _ _).2, (grammarParamsLoop_frame _ _ _).1]
    rw [if_neg h]
    exact ⟨rfl, rfl, rfl⟩
  · simp only [hresp, if_false]
    rw [(grammarParamsLoop_frame _ _ _).2, (grammarParamsLoop_frame _ _ _).1]
    rw [if_neg h]
    exact ⟨rfl, rfl, rfl⟩
/-! ## C6 and C9 -/

/-- A grammar whose table name holds a hyphen, a non-word character that
`fromRe`'s capture class `\w+` cannot span. -/
def hyphenGrammar : SQLGrammar :=
  { TableName := "user-accounts", AllowedColumns := ["id", "name"],
    WhereClause := { AllowedColumns := [("id", ["="])], Suggestions := [] },
    OrderBy := { AllowedColumns := ["id"], DefaultOrder := "ASC" },
    Limit := { MaxLimit := 1000, DefaultLimit := 100, HasPaging := false } }

/-- C6, counterexample: with table name `user-accounts`, the statement
`SELECT * FROM user-accounts` is rejected — the FROM regex captures only
the word-character run `user`, which fails the table-name check — so no
ParsedQuery with the grammar columns is produced. -/
theorem c6_star_fails_hyphen_table :
    exceptOk (ParseSQL hyphenGrammar "SELECT * FROM user-accounts") = false := by
  decide

/-- C6 (amended to word-character table names): for a grammar whose
table name is a non-empty string of word characters, `SELECT * FROM t`
with `t` the table name parses successfully and the resulting projected
column list equals the grammar's `AllowedColumns`, element for element,
in declared order. -/
theorem c6_star_expands_allowed_columns (g : SQLGrammar)
    (ht : g.TableName.data ≠ [])
    (hw : ∀ c ∈ g.TableName.data, reWord c = true) :
    ∃ q : ParsedQuery,
      ParseSQL g ("SELECT * FROM " ++ g.TableName) = .ok q ∧
      q.Columns = g.AllowedColumns :=
  ⟨_, ParseSQL_selectStar g ht hw, rfl⟩

/-- C6, witness: the amended theorem applied to `petsGrammar`. -/
theorem c6_star_expands_allowed_columns_witness :
    (petsGrammar.TableName.data ≠ [] ∧
      ∀ c ∈ petsGrammar.TableName.data, reWord c = true) ∧
    ∃ q : ParsedQuery,
      ParseSQL petsGrammar ("SELECT * FROM " ++ petsGrammar.TableName) = .ok q ∧
      q.Columns = petsGrammar.AllowedColumns :=
  ⟨⟨by decide, by decide⟩,
    c6_star_expands_allowed_columns petsGrammar (by decide) (by decide)⟩

/-- C9: for any capability with a word-character table name and a
positive maximum below 100, the generated grammar hard-codes
`DefaultLimit = 100`, a valid SELECT without LIMIT parses with
`Limit = 100`, and that limit exceeds the grammar's own `MaxLimit`:
the default is never checked against the maximum. -/
theorem c9_default_limit_exceeds_max (cap : APICapability)
    (ht : cap.TableName.data ≠ [])
    (hw : ∀ c ∈ cap.TableName.data, reWord c = true)
    (hpos : 0 < cap.MaxResults) (hlt : cap.MaxResults < 100) :
    ∃ q : ParsedQuery,
      ParseSQL (GenerateGrammar cap) ("SELECT * FROM " ++ cap.TableName) = .ok q ∧
      q.Limit = 100 ∧ (GenerateGrammar cap).Limit.MaxLimit < q.Limit := by
  obtain ⟨hT, hD, hM⟩ := GenerateGrammar_fields cap (by omega)
  have hstar := ParseSQL_selectStar (GenerateGrammar cap)
    (by rw [hT]; exact ht) (fun c hc => hw c (by rw [hT] at hc; exact hc))
  rw [hT] at hstar
  refine ⟨_, hstar, hD, ?_⟩
  show (GenerateGrammar cap).Limit.MaxLimit < (GenerateGrammar cap).Limit.DefaultLimit
  rw [hM, hD]
  exact hlt

/-- A capability declaring a maximum of 10 results. -/
def smallCap : APICapability :=
  { Path := "/pets", Method := "GET", Parameters := [],
    ResponseColumns := ["id", "name"], TableName := "pets",
    BaseURL := "https://api.example.com", MaxResults := 10,
    HasPaging := false, PageParam := "", LimitParam := "" }

/-- C9, witness: the capability `smallCap` with `MaxResults = 10` yields
a grammar whose default-limit SELECT parses with `Limit = 100 > 10`. -/
theorem c9_default_limit_exceeds_max_witness :
    (smallCap.TableName.data ≠ [] ∧
      (∀ c ∈ smallCap.TableName.data, reWord c = true) ∧
      0 < smallCap.MaxResults ∧ smallCap.MaxResults < 100) ∧
    ∃ q : ParsedQuery,
      ParseSQL (GenerateGrammar smallCap) ("SELECT * FROM " ++ smallCap.TableName) =
        .ok q ∧
      q.Limit = 100 ∧ (GenerateGrammar smallCap).Limit.MaxLimit < q.Limit :=
  ⟨⟨by decide, by decide, by decide, by decide⟩,
    c9_default_limit_exceeds_max smallCap (by decide) (by decide) (by decide)
      (by decide)⟩
